import Mathlib

/-!
Verification development for the finsage-lite parsing/chunking core.

The definitions below are a shallow embedding of `src/services/chunking.py`
and `src/services/parsing.py`.  Python strings are modelled as Lean `String`
(operated on through their `List Char` data), Python `int` as `Int` (or `Nat`
where the source only ever produces naturals), the tiktoken encoder as an
abstract `Tokenizer` parameter (it is an external library; the chunker is
parametric in it), and the BeautifulSoup DOM as an explicit tree `HtmlNode`
with node identity given by root paths (`List Nat`), mirroring CPython
object identity (`id(...)` / `is`) for distinct tree positions.
-/

namespace FinSage

/-- Python `str.isspace`-style whitespace test, covering the ASCII and
Latin-1 whitespace characters that `\s` and `str.strip()` treat as blank
(space, tab, newline, carriage return, vertical tab, form feed, NEL, NBSP). -/
def isPySpace (c : Char) : Bool :=
  c = ' ' || c = '\t' || c = '\n' || c = '\r' || c = Char.ofNat 0x0b ||
  c = Char.ofNat 0x0c || c = Char.ofNat 0x85 || c = Char.ofNat 0xa0

/-- Python `str.strip()`: remove leading and trailing whitespace. -/
def pyStrip (s : String) : String :=
  ⟨((s.data.dropWhile isPySpace).reverse.dropWhile isPySpace).reverse⟩

/-- Python `s[n:]` (slice off the first `n` characters). -/
def pySliceFrom (s : String) (n : Nat) : String :=
  ⟨s.data.drop n⟩

/-- SEC 10-K section types (`src/models/chunk.py`, `SectionType`). -/
inductive SectionType where
  | ITEM_1
  | ITEM_1A
  | ITEM_7
  | ITEM_7A
  | ITEM_8
  | OTHER
deriving DecidableEq, Repr

/-- `SectionType.value` (the `StrEnum` string value). -/
def SectionType.value : SectionType → String
  | .ITEM_1 => "ITEM_1"
  | .ITEM_1A => "ITEM_1A"
  | .ITEM_7 => "ITEM_7"
  | .ITEM_7A => "ITEM_7A"
  | .ITEM_8 => "ITEM_8"
  | .OTHER => "OTHER"

/-- Content type of a chunk (`src/models/chunk.py`, `ContentType`). -/
inductive ContentType where
  | TEXT
  | TABLE
deriving DecidableEq, Repr

/-- A JSONB-compatible scalar metadata value, for the chunk metadata dict. -/
inductive MetaValue where
  | str (s : String)
  | int (i : Int)
deriving DecidableEq, Repr

/-- The `tiktoken` encoder is an external library; the chunker is modelled
parametrically in any encode/decode pair. -/
structure Tokenizer where
  encode : String → List Nat
  decode : List Nat → String

/-- `SectionChunker` state: the two configuration integers
(`src/services/chunking.py` lines 37-51).  The source takes Python ints; the
configuration values in the repository (250/50 and every value exercised by
its tests) are naturals. -/
structure SectionChunker where
  chunk_size : Nat
  chunk_overlap : Nat
deriving DecidableEq, Repr

/-- `SectionChunker.__init__`: raises `ValueError` when
`chunk_overlap >= chunk_size` (the spec's `ConfigurationError`), otherwise
constructs the chunker.  Modelled as `Except`. -/
def SectionChunker.init (chunk_size chunk_overlap : Nat) :
    Except String SectionChunker :=
  if chunk_size ≤ chunk_overlap then
    .error "chunk_overlap must be less than chunk_size"
  else
    .ok ⟨chunk_size, chunk_overlap⟩

/-- The loop `for start in range(0, total_tokens, step): ... if end >= total:
break` from `_split_tokens` (lines 155-162), returning the emitted window
start offsets.  The `0 < step` guard is the totality counterpart of the
constructor invariant `chunk_overlap < chunk_size` (with `step = 0` the
Python `range` would raise). -/
def windowStarts (step size T start : Nat) : List Nat :=
  if h : 0 < step ∧ start < T then
    if T ≤ start + size then [start]
    else start :: windowStarts step size T (start + step)
  else []
termination_by T - start
decreasing_by
  simp only [not_le] at *
  omega

/-- The token windows `[start, min(start+size, T))` emitted by
`_split_tokens` on a token sequence of length `T` (lines 152-162). -/
def SectionChunker.splitTokenWindows (ch : SectionChunker) (T : Nat) :
    List (Nat × Nat) :=
  (windowStarts (ch.chunk_size - ch.chunk_overlap) ch.chunk_size T 0).map
    (fun s => (s, min (s + ch.chunk_size) T))

/-- `SectionChunker._split_tokens` (lines 134-164): encode, then either the
whole text as a single chunk (when `T ≤ chunk_size`) or the decoded, stripped
token windows. -/
def SectionChunker.splitTokens (ch : SectionChunker) (tok : Tokenizer)
    (text : String) : List String :=
  let tokens := tok.encode text
  let T := tokens.length
  if T ≤ ch.chunk_size then [text]
  else
    (ch.splitTokenWindows T).map
      (fun w => pyStrip (tok.decode ((tokens.drop w.1).take (w.2 - w.1))))

/-- `SectionChunker._build_prefix` (lines 166-180):
`"[{company} | 10-K FY{year} | {title}]"`. -/
def contextHeader (company_name : String) (fiscal_year : Int)
    (section_title : String) : String :=
  "[" ++ company_name ++ " | 10-K FY" ++ toString fiscal_year ++ " | " ++
    section_title ++ "]"

/-- `SectionChunker._estimate_page` (lines 182-199): proportional page
estimate with 4 chunks per page (`math.ceil` on naturals). -/
def estimatePage (chunk_index total_chunks : Nat) : Nat :=
  let chunks_per_page := 4
  let total_pages := max 1 ((total_chunks + chunks_per_page - 1) / chunks_per_page)
  let page := (chunk_index + 1 + chunks_per_page - 1) / chunks_per_page
  min page total_pages

/-- `ChunkData` (`src/schemas/chunking.py`); the Python field `section` is a
Lean keyword and is rendered `sec`. -/
structure ChunkData where
  sec : SectionType
  section_title : String
  content_type : ContentType
  content_raw : String
  content_context : String
  chunk_index : Nat
  metadata : List (String × MetaValue)
deriving DecidableEq, Repr

/-- The metadata dict built for chunk `idx` of `total` (lines 102-111). -/
def chunkMetadata (company_name cik : String) (fiscal_year : Int)
    (sec : SectionType) (section_title : String) (idx total : Nat) :
    List (String × MetaValue) :=
  [("company", .str company_name),
   ("cik", .str cik),
   ("fiscal_year", .int fiscal_year),
   ("section", .str sec.value),
   ("section_title", .str section_title),
   ("chunk_index", .int idx),
   ("total_chunks", .int total),
   ("page_approx", .int (estimatePage idx total))]

/-- `SectionChunker.chunk_section` (lines 63-132). -/
def SectionChunker.chunkSection (ch : SectionChunker) (tok : Tokenizer)
    (text : String) (sec : SectionType) (section_title company_name cik : String)
    (fiscal_year : Int) : List ChunkData :=
  let text := pyStrip text
  if text = "" then []
  else
    let raw_chunks := ch.splitTokens tok text
    if raw_chunks = [] then []
    else
      let total_chunks := raw_chunks.length
      let hdr := contextHeader company_name fiscal_year section_title
      raw_chunks.enum.map (fun p =>
        { sec := sec
          section_title := section_title
          content_type := ContentType.TEXT
          content_raw := p.2
          content_context := hdr ++ "\n\n" ++ p.2
          chunk_index := p.1
          metadata := chunkMetadata company_name cik fiscal_year sec
            section_title p.1 total_chunks })

/-- `SectionChunker.count_tokens` (lines 201-211). -/
def countTokens (tok : Tokenizer) (text : String) : Nat :=
  (tok.encode text).length

/-! ## The BeautifulSoup DOM, as an explicit tree

A parsed document is a tree of elements and text nodes.  A node occurrence is
identified by its path of child indices from the soup root (the bs4
`[document]` object), which models CPython object identity: two structurally
equal tags at different positions have different paths. -/

mutual

/-- An HTML DOM node: an element (bs4 `Tag`) or a text node
(`NavigableString`).  The child sequence is its own inductive so that the
tree recursions below are structural (and hence kernel-evaluable). -/
inductive HtmlNode where
  | elem (tag : String) (attrs : List (String × String)) (children : NodeList)
  | text (s : String)

/-- A sequence of sibling DOM nodes. -/
inductive NodeList where
  | nil
  | cons (n : HtmlNode) (ns : NodeList)

end

/-- Build a `NodeList` from a list literal. -/
def nodesOf : List HtmlNode → NodeList
  | [] => .nil
  | n :: ns => .cons n (nodesOf ns)

/-- The child nodes as a plain list (no recursion into the nodes). -/
def NodeList.toList : NodeList → List HtmlNode
  | .nil => []
  | .cons n ns => n :: ns.toList

/-- Children of a node (text nodes have none). -/
def HtmlNode.childrenOf : HtmlNode → NodeList
  | .elem _ _ cs => cs
  | .text _ => .nil

/-- Is this node a `Tag` (bs4 `isinstance(x, Tag)`)? -/
def HtmlNode.isElem : HtmlNode → Bool
  | .elem _ _ _ => true
  | .text _ => false

/-- Node at a path of child indices, starting from `root`. -/
def nodeAt : HtmlNode → List Nat → Option HtmlNode
  | n, [] => some n
  | n, i :: p =>
    match n.childrenOf.toList[i]? with
    | some c => nodeAt c p
    | none => none

/-- Paths of all descendants of the nodes of a sibling sequence (the `i`-th
node itself, then its descendants, then the next node), with the first index
offset by `i`.  This is bs4 document order (pre-order). -/
def descendantPathsAux : NodeList → Nat → List (List Nat)
  | .nil, _ => []
  | .cons (HtmlNode.text _) cs, i => [i] :: descendantPathsAux cs (i + 1)
  | .cons (HtmlNode.elem _ _ gs) cs, i =>
    ([i] :: (descendantPathsAux gs 0).map (fun p => i :: p)) ++
      descendantPathsAux cs (i + 1)

/-- Paths of all strict descendants of a node, in document order (the search
space of bs4 `find_all` / `find`). -/
def HtmlNode.descendantPaths (n : HtmlNode) : List (List Nat) :=
  descendantPathsAux n.childrenOf 0

/-- Descendant text-node strings of a sibling sequence, in document order. -/
def textsAux : NodeList → List String
  | .nil => []
  | .cons (HtmlNode.text s) cs => s :: textsAux cs
  | .cons (HtmlNode.elem _ _ gs) cs => textsAux gs ++ textsAux cs

/-- Descendant strings of a node (bs4 `Tag.strings`). -/
def HtmlNode.textsOf : HtmlNode → List String
  | .text s => [s]
  | .elem _ _ gs => textsAux gs

/-- bs4 `get_text(strip=True)`: stripped descendant strings, concatenated. -/
def getTextStrip (n : HtmlNode) : String :=
  String.join (n.textsOf.map pyStrip)

/-- bs4 `get_text(separator=sep)` (no stripping). -/
def getTextSep (n : HtmlNode) (sep : String) : String :=
  String.intercalate sep n.textsOf

/-- bs4 `get_text(separator=" ", strip=True)`: stripped, non-empty descendant
strings joined by a single space. -/
def getTextSpaceStrip (n : HtmlNode) : String :=
  String.intercalate " " ((n.textsOf.map pyStrip).filter (fun s => s ≠ ""))

/-- Attribute lookup (`tag.get(key)`). -/
def getAttr (attrs : List (String × String)) (key : String) : Option String :=
  (attrs.find? (fun a => a.1 = key)).map (fun a => a.2)

/-- Serialized attributes, for `str(tag)`. -/
def attrsToStr : List (String × String) → String
  | [] => ""
  | (k, v) :: rest => " " ++ k ++ "=\"" ++ v ++ "\"" ++ attrsToStr rest

mutual

/-- `str(tag)`: a simple HTML serialization (the claims never inspect the
exact serialization format, only propagate it). -/
def nodeToStr : HtmlNode → String
  | .text s => s
  | .elem t attrs cs => "<" ++ t ++ attrsToStr attrs ++ ">" ++ nodesToStr cs ++
      "</" ++ t ++ ">"

/-- Serialization of a sibling sequence. -/
def nodesToStr : NodeList → String
  | .nil => ""
  | .cons c cs => nodeToStr c ++ nodesToStr cs

end

/-- ASCII lowercasing (Python `str.lower` on the ASCII range). -/
def lowerStr (s : String) : String := ⟨s.data.map Char.toLower⟩

/-- ASCII uppercasing (Python `str.upper` on the ASCII range). -/
def upperStr (s : String) : String := ⟨s.data.map Char.toUpper⟩

/-- Strip a literal pattern from the front of the input, returning the rest. -/
def stripLit : List Char → List Char → Option (List Char)
  | [], cs => some cs
  | _ :: _, [] => none
  | p :: ps, c :: cs => if c = p then stripLit ps cs else none

/-- Case-insensitive variant of `stripLit` (the pattern is lowercase). -/
def stripCI : List Char → List Char → Option (List Char)
  | [], cs => some cs
  | _ :: _, [] => none
  | p :: ps, c :: cs => if c.toLower = p then stripCI ps cs else none

/-- `str.startswith` (re-implemented so the kernel can evaluate it). -/
def strStartsWith (s pre : String) : Bool :=
  (stripLit pre.data s.data).isSome

/-- Split on a single separator character (Python `str.split(sep)` /
`String.splitOn` for a one-character separator, re-implemented structurally
so the kernel can evaluate it). -/
def splitOnChar (sep : Char) : List Char → List (List Char)
  | [] => [[]]
  | c :: rest =>
    match splitOnChar sep rest with
    | [] => [[]]
    | l :: ls => if c = sep then [] :: l :: ls else (c :: l) :: ls

/-- The lines of a string (Python `s.split("\n")`). -/
def strLines (s : String) : List String :=
  (splitOnChar '\n' s.data).map (fun l => ⟨l⟩)

/-- Does `font-weight:\s*700` match at the head of this character list? -/
def boldStyleAt (cs : List Char) : Bool :=
  match stripLit "font-weight:".data cs with
  | none => false
  | some r => (stripLit "700".data (r.dropWhile isPySpace)).isSome

/-- `re.search(r"font-weight:\s*700", s)`: the bs4 attribute filter of
`_find_section_headings` (line 227). -/
def hasBoldStyle (s : String) : Bool :=
  s.data.tails.any boldStyleAt

/-- The separator character class `[\.\s\xa0\-—:]` of
`_ITEM_HEADING_RE` / `_ITEM_TEXT_RE` (lines 59-66). -/
def isSepChar (c : Char) : Bool :=
  c = '.' || isPySpace c || c = '-' || c = Char.ofNat 0x2014 || c = ':'

/-- One attempt of `Item\s+(\d+[A-Za-z]?)[\.\s\xa0\-—:]+(.+)` (case
insensitive) at the head of the input, returning
`(group(1), group(2), remainder after the match end)`.  The
greedy/backtracking behaviour of the Python engine reduces to the following
deterministic scan: the optional trailing letter is viable only when taken
(a letter is never a separator); `(.+)` takes the maximal newline-free run
after the separators; and when the separator run reaches the end of the
input, `(.+)` backtracks to the last separator character that is not a
newline (needing at least one separator to remain before it).  Because
`(.+)` always stops right before a newline or at the end, a trailing `$`
(as in `_ITEM_TEXT_RE`) is satisfied whenever the `$`-free pattern
matches. -/
def matchItemAt (cs : List Char) :
    Option (List Char × List Char × List Char) :=
  match stripCI "item".data cs with
  | none => none
  | some r1 =>
    let ws := r1.takeWhile isPySpace
    if ws.isEmpty then none
    else
      let r2 := r1.drop ws.length
      let ds := r2.takeWhile Char.isDigit
      if ds.isEmpty then none
      else
        let r3 := r2.drop ds.length
        let keepLetter := match r3 with
          | c :: _ => c.isAlpha
          | [] => false
        let num : List Char := if keepLetter then ds ++ r3.take 1 else ds
        let r4 := if keepLetter then r3.drop 1 else r3
        let run := r4.takeWhile isSepChar
        if run.isEmpty then none
        else
          let rest := r4.drop run.length
          if rest.isEmpty then
            match (run.drop 1).reverse.dropWhile (fun c => c = '\n') with
            | [] => none
            | c :: tl =>
              some (num, [c], List.replicate (run.length - 2 - tl.length) '\n')
          else
            let title := rest.takeWhile (fun c => c ≠ '\n')
            some (num, title, rest.drop title.length)

/-- `_ITEM_HEADING_RE.match(text)` (line 229): the anchored match, giving
the two groups. -/
def matchItemHeading (s : String) : Option (String × String) :=
  (matchItemAt s.data).map (fun r => (⟨r.1⟩, ⟨r.2.1⟩))

/-- `_HeadingInfo` (lines 69-76); `element` is the path of the anchoring
node. -/
structure HeadingInfo where
  item_number : String
  title : String
  element : List Nat
  position : Nat
deriving DecidableEq, Repr

/-- `soup.find(tag)` / attribute access like `soup.body`, `soup.title`: path
of the first descendant element with the given name, in document order. -/
def findFirstTag (root : HtmlNode) (tag : String) : Option (List Nat) :=
  root.descendantPaths.find? (fun p =>
    match nodeAt root p with
    | some (.elem t _ _) => t = tag
    | _ => false)

/-- Is `q` a proper prefix of `p` (an ancestor path of the node at `p`)? -/
def properPrefixOf (q p : List Nat) : Bool :=
  decide (q.length < p.length ∧ p.take q.length = q)

/-- `span.find_parent("table") is not None`: some strict ancestor (including
the soup root, which is never named `"table"`) is a `table` element. -/
def underTable (root : HtmlNode) (p : List Nat) : Bool :=
  (List.range p.length).any (fun k =>
    match nodeAt root (p.take k) with
    | some (.elem t _ _) => t = "table"
    | _ => false)

/-- The bs4 filter `find_all("span", style=re.compile(r"font-weight:\s*700"))`
applied to the node at a path. -/
def isBoldSpan (root : HtmlNode) (p : List Nat) : Bool :=
  match nodeAt root p with
  | some (.elem t attrs _) =>
    t = "span" &&
      (match getAttr attrs "style" with
       | some st => hasBoldStyle st
       | none => false)
  | _ => false

/-- Paths of all bold `span` candidates, in document order (the iteration
order of line 227). -/
def boldSpanPaths (root : HtmlNode) : List (List Nat) :=
  root.descendantPaths.filter (isBoldSpan root)

/-- Paths of the `Tag` children of the body, in order: the `body_children`
position index of lines 222-224. -/
def tagChildPositions (bodyPath : List Nat) (cs : List HtmlNode) : List (List Nat) :=
  (cs.enum.filter (fun ic => ic.2.isElem)).map (fun ic => bodyPath ++ [ic.1])

/-- The per-span body of the loop at lines 227-260: match the heading
pattern on the stripped span text, discard table-of-contents entries
(`find_parent("table")`), walk up to the ancestor that is a direct child of
`<body>` (`_find_body_child`, lines 265-280: from the span's parent, so a
span that is itself a direct child of body resolves to no anchor), and look
its position up among the body's `Tag` children. -/
def spanHeading (root : HtmlNode) (bodyPath : List Nat)
    (bodyChildren : List HtmlNode) (p : List Nat) : Option HeadingInfo :=
  match nodeAt root p with
  | none => none
  | some sp =>
    match matchItemHeading (getTextStrip sp) with
    | none => none
    | some nt =>
      if underTable root p then none
      else
        let q := p.dropLast
        if properPrefixOf bodyPath q then
          let anchor := q.take (bodyPath.length + 1)
          match (tagChildPositions bodyPath bodyChildren).findIdx?
              (fun a => a = anchor) with
          | none => none
          | some pos =>
            some { item_number := lowerStr nt.1, title := pyStrip nt.2,
                   element := anchor, position := pos }
        else none

/-- Stable insertion of a heading after every entry with position `≤` its
own. -/
def insertByPos (h : HeadingInfo) : List HeadingInfo → List HeadingInfo
  | [] => [h]
  | h2 :: t => if h2.position ≤ h.position then h2 :: insertByPos h t
               else h :: h2 :: t

/-- `headings.sort(key=lambda h: h.position)`: Python's stable sort. -/
def sortByPos (l : List HeadingInfo) : List HeadingInfo :=
  l.foldl (fun acc h => insertByPos h acc) []

/-- `FilingParser._find_section_headings` (lines 206-263). -/
def findSectionHeadings (root : HtmlNode) : List HeadingInfo :=
  match findFirstTag root "body" with
  | none => []
  | some bp =>
    let bodyChildren := match nodeAt root bp with
      | some n => n.childrenOf.toList
      | none => []
    sortByPos ((boldSpanPaths root).filterMap (spanHeading root bp bodyChildren))

/-- `_ITEM_TEXT_RE.finditer(text)`: left-to-right scan of the flattened
text.  `(?m)^` lets a match start only at position 0 or right after a
newline; a match itself may span lines (the separator class contains `\s`,
which crosses newlines); scanning resumes after each match end, which always
sits on a non-newline title character, so the resume position is never a
line start.  One unit of fuel is spent per consumed character (a match
consumes at least one), so a fuel of the input length suffices. -/
def itemScanAux : Nat → Bool → List Char → List (List Char × List Char)
  | 0, _, _ => []
  | _ + 1, _, [] => []
  | fuel + 1, atStart, c :: cs =>
    if atStart then
      match matchItemAt (c :: cs) with
      | some (num, title, rest) => (num, title) :: itemScanAux fuel false rest
      | none => itemScanAux fuel (c = '\n') cs
    else itemScanAux fuel (c = '\n') cs

/-- All `(group(1), group(2))` matches of `_ITEM_TEXT_RE` over a text, in
order. -/
def itemFinditer (s : String) : List (List Char × List Char) :=
  itemScanAux s.data.length true s.data

/-- `FilingParser._find_headings_fallback` (lines 282-313): flatten the body
text with `"\n"` separators and scan it with `_ITEM_TEXT_RE`.  Every
heading anchors at the body itself, with its match index as position. -/
def findHeadingsFallback (root : HtmlNode) : List HeadingInfo :=
  match findFirstTag root "body" with
  | none => []
  | some bp =>
    match nodeAt root bp with
    | none => []
    | some bodyNode =>
      (itemFinditer (getTextSep bodyNode "\n")).enum.map (fun m =>
        { item_number := lowerStr ⟨m.2.1⟩, title := pyStrip ⟨m.2.2⟩,
          element := bp, position := m.1 })

/-- `FilingMetadata` (`src/schemas/parsing.py`). -/
structure FilingMetadata where
  company_name : String
  cik : String
  fiscal_year : Int
  filing_period : String
  doc_title : String
deriving DecidableEq, Repr

/-- The `dei:` field dictionary entries of `_extract_metadata` (lines
173-178), in document order; a later assignment to the same key overwrites
an earlier one. -/
def deiEntries (root : HtmlNode) : List (String × String) :=
  root.descendantPaths.filterMap (fun p =>
    match nodeAt root p with
    | some (HtmlNode.elem t attrs cs) =>
      if strStartsWith t "ix:" then
        let nm := (getAttr attrs "name").getD ""
        if strStartsWith (lowerStr nm) "dei:" then
          some (lowerStr ⟨(splitOnChar ':' nm.data).getLastD []⟩,
                getTextStrip (HtmlNode.elem t attrs cs))
        else none
      else none
    | _ => none)

/-- `dict.get(key, dflt)` over assignment-ordered entries: the last write to
the key wins. -/
def dictGetD (entries : List (String × String)) (key dflt : String) : String :=
  match (entries.filter (fun e => e.1 = key)).getLast? with
  | some e => e.2
  | none => dflt

/-- Decimal digits to a natural number. -/
def digitsToNat (cs : List Char) : Nat :=
  cs.foldl (fun acc c => acc * 10 + (c.toNat - '0'.toNat)) 0

/-- Python `int(s)` on a decimal string: strip, optional sign, at least one
digit; `none` models `ValueError`. -/
def parseIntPy (s : String) : Option Int :=
  match (pyStrip s).data with
  | '-' :: ds =>
    if !ds.isEmpty && ds.all Char.isDigit then some (-(digitsToNat ds : Int))
    else none
  | '+' :: ds =>
    if !ds.isEmpty && ds.all Char.isDigit then some (digitsToNat ds : Int)
    else none
  | ds =>
    if !ds.isEmpty && ds.all Char.isDigit then some (digitsToNat ds : Int)
    else none

/-- `FilingParser._extract_metadata` (lines 164-204). -/
def extractMetadata (root : HtmlNode) : FilingMetadata :=
  let fields := deiEntries root
  { company_name := dictGetD fields "entityregistrantname" ""
    cik := dictGetD fields "entitycentralindexkey" ""
    fiscal_year := (parseIntPy (dictGetD fields "documentfiscalyearfocus" "0")).getD 0
    filing_period := dictGetD fields "documentfiscalperiodfocus" ""
    doc_title :=
      match findFirstTag root "title" with
      | some p =>
        match nodeAt root p with
        | some n => getTextStrip n
        | none => ""
      | none => "" }

/-- The sibling walk of `_extract_section_content` (lines 410-424) over the
enumerated children after the anchor: skip text siblings, stop at the next
heading's anchor (object identity = path equality), collect `str(sibling)`
and the space-joined stripped text of each `Tag` sibling (the latter only
when non-empty). -/
def collectSiblings (pp : List Nat) (next? : Option (List Nat)) :
    List (Nat × HtmlNode) → List String × List String
  | [] => ([], [])
  | (k, c) :: rest =>
    if c.isElem then
      if next? = some (pp ++ [k]) then ([], [])
      else
        let r := collectSiblings pp next? rest
        let t := getTextSpaceStrip c
        (nodeToStr c :: r.1, if t ≠ "" then t :: r.2 else r.2)
    else collectSiblings pp next? rest

/-- `FilingParser._extract_section_content` (lines 393-424).  Every anchor
path reaching this function is non-empty (a direct child of `<body>`, or the
body itself on the fallback path), so `getLastD` never sees its default. -/
def extractSectionContent (root : HtmlNode) (anchor : List Nat)
    (next? : Option (List Nat)) : String × String :=
  let pp := anchor.dropLast
  let j := anchor.getLastD 0
  let siblings := match nodeAt root pp with
    | some par => par.childrenOf.toList.enum.drop (j + 1)
    | none => []
  let r := collectSiblings pp next? siblings
  (String.intercalate "\n" r.1, String.intercalate "\n" r.2)

/-- One attempt of the footer regex
`{escaped_name}\s*\|\s*{fiscal_year}\s+Form\s+10-K\s*\|\s*\d+` at the head
of the input (deterministic: every `\s*`/`\s+`/`\d+` is followed by a
character outside its class, so maximal munch is exact).  Returns the
remainder after the match. -/
def matchFooterAt (company yearStr : String) (cs : List Char) :
    Option (List Char) :=
  (stripLit company.data cs).bind fun r1 =>
  (stripLit "|".data (r1.dropWhile isPySpace)).bind fun r2 =>
  (stripLit yearStr.data (r2.dropWhile isPySpace)).bind fun r3 =>
  (let ws := r3.takeWhile isPySpace
   if ws.isEmpty then none
   else stripLit "Form".data (r3.drop ws.length)).bind fun r4 =>
  (let ws := r4.takeWhile isPySpace
   if ws.isEmpty then none
   else stripLit "10-K".data (r4.drop ws.length)).bind fun r5 =>
  (stripLit "|".data (r5.dropWhile isPySpace)).bind fun r6 =>
  let r7 := r6.dropWhile isPySpace
  let ds := r7.takeWhile Char.isDigit
  if ds.isEmpty then none else some (r7.drop ds.length)

/-- `re.sub(footer_pattern, "", text)`: left-to-right scan, removing each
leftmost match and resuming after it.  Every match consumes at least one
character (it contains two `|` literals), so a fuel of the input length is
always sufficient. -/
def footerSubAux (company yearStr : String) : Nat → List Char → List Char
  | 0, cs => cs
  | _ + 1, [] => []
  | fuel + 1, c :: cs =>
    match matchFooterAt company yearStr (c :: cs) with
    | some rest => footerSubAux company yearStr fuel rest
    | none => c :: footerSubAux company yearStr fuel cs

/-- Footer removal pass (lines 445-450), with the year rendered in decimal
as Python's f-string interpolation does. -/
def footerSub (company : String) (year : Int) (s : String) : String :=
  ⟨footerSubAux company (toString year) s.data.length s.data⟩

/-- A line matched by `(?im)^\s*Table\s+of\s+Contents\s*$` (line 453). -/
def isToCLine (line : String) : Bool :=
  match stripCI "table".data (line.data.dropWhile isPySpace) with
  | none => false
  | some r1 =>
    let ws := r1.takeWhile isPySpace
    if ws.isEmpty then false
    else
      match stripCI "of".data (r1.drop ws.length) with
      | none => false
      | some r2 =>
        let ws2 := r2.takeWhile isPySpace
        if ws2.isEmpty then false
        else
          match stripCI "contents".data (r2.drop ws2.length) with
          | none => false
          | some r3 => (r3.dropWhile isPySpace).isEmpty

/-- A line matched by `(?m)^\s*\d+\s*$` (line 459). -/
def isPageNumLine (line : String) : Bool :=
  let cs := line.data.dropWhile isPySpace
  let ds := cs.takeWhile Char.isDigit
  !ds.isEmpty && ((cs.drop ds.length).dropWhile isPySpace).isEmpty

/-- Run-counting scan for `collapseNewlines`: `run` pending newlines are
flushed as `min run 2` newlines at each non-newline character and at the
end. -/
def collapseAux (run : Nat) : List Char → List Char
  | [] => List.replicate (min run 2) '\n'
  | c :: rest =>
    if c = '\n' then collapseAux (run + 1) rest
    else List.replicate (min run 2) '\n' ++ c :: collapseAux 0 rest

/-- `re.sub(r"\n{3,}", "\n\n", text)`: collapse every run of three or more
newlines to exactly two. -/
def collapseNewlines (cs : List Char) : List Char :=
  collapseAux 0 cs

/-- Remove trailing spaces/tabs of a line. -/
def rstripSpaceTab (line : String) : String :=
  ⟨(line.data.reverse.dropWhile (fun c => c = ' ' || c = '\t')).reverse⟩

/-- `re.sub(r"[ \t]+\n", "\n", text)`: every line that is followed by a
newline (all but the last) loses its trailing spaces/tabs. -/
def stripLineTrails : List String → List String
  | [] => []
  | [l] => [l]
  | l :: l2 :: ls => rstripSpaceTab l :: stripLineTrails (l2 :: ls)

/-- Steps 2-6 of `_clean_text` (lines 452-465): drop ToC lines, normalize
non-breaking spaces, drop standalone page-number lines, collapse blank
lines, strip line-trailing whitespace, trim. -/
def cleanTail (text : String) : String :=
  let t2 := String.intercalate "\n"
    ((strLines text).map (fun l => if isToCLine l then "" else l))
  let t3 : String := ⟨t2.data.map (fun c => if c = Char.ofNat 0xa0 then ' ' else c)⟩
  let t4 := String.intercalate "\n"
    ((strLines t3).map (fun l => if isPageNumLine l then "" else l))
  let t5 : String := ⟨collapseNewlines t4.data⟩
  let t6 := String.intercalate "\n" (stripLineTrails (strLines t5))
  pyStrip t6

/-- `FilingParser._clean_text` (lines 426-465); the footer pass runs only
under the Python truthiness guard `if company_name and fiscal_year:`. -/
def cleanText (company_name : String) (fiscal_year : Int) (text : String) :
    String :=
  if company_name ≠ "" ∧ fiscal_year ≠ 0 then
    cleanTail (footerSub company_name fiscal_year text)
  else cleanTail text

/-- `SectionContent` (`src/schemas/parsing.py`). -/
structure SectionContent where
  section_type : SectionType
  title : String
  html_content : String
  text_content : String
deriving DecidableEq, Repr

/-- `ParsedFiling` (`src/schemas/parsing.py`); the sections dict is an
insertion-ordered association list with unique keys. -/
structure ParsedFiling where
  metadata : FilingMetadata
  sections : List (SectionType × SectionContent)
  all_sections_found : List String
deriving DecidableEq, Repr

/-- `_ITEM_TO_SECTION` (lines 23-29). -/
def ITEM_TO_SECTION (s : String) : Option SectionType :=
  if s = "1" then some .ITEM_1
  else if s = "1a" then some .ITEM_1A
  else if s = "7" then some .ITEM_7
  else if s = "7a" then some .ITEM_7A
  else if s = "8" then some .ITEM_8
  else none

/-- Python dict assignment `d[k] = v`: overwrite in place, keeping the key's
original insertion position, else append. -/
def dictSet : List (SectionType × SectionContent) → SectionType →
    SectionContent → List (SectionType × SectionContent)
  | [], k, v => [(k, v)]
  | (k2, v2) :: t, k, v =>
    if k2 = k then (k, v) :: t else (k2, v2) :: dictSet t k v

/-- Dict lookup over the (unique-keyed) sections list. -/
def dictLookup (m : List (SectionType × SectionContent)) (k : SectionType) :
    Option SectionContent :=
  (m.find? (fun e => e.1 = k)).map (fun e => e.2)

/-- The `SectionContent` a heading would contribute: slice the siblings up
to `next?` and clean the text (lines 364-371 and 379-384). -/
def mkSectionContent (root : HtmlNode) (md : FilingMetadata)
    (st : SectionType) (h : HeadingInfo) (next? : Option (List Nat)) :
    SectionContent :=
  let hc := extractSectionContent root h.element next?
  ⟨st, h.title, hc.1, cleanText md.company_name md.fiscal_year hc.2⟩

/-- The loop of `_extract_target_sections` (lines 356-389): iterate headings
in order; for each target heading slice to the *next* heading (of any
designator), clean, drop when the cleaned text strips to empty, otherwise
overwrite the dict entry. -/
def extractLoop (root : HtmlNode) (targets : List String)
    (md : FilingMetadata) : List HeadingInfo →
    List (SectionType × SectionContent) → List (SectionType × SectionContent)
  | [], acc => acc
  | h :: rest, acc =>
    if h.item_number ∈ targets then
      match ITEM_TO_SECTION h.item_number with
      | none => extractLoop root targets md rest acc
      | some st =>
        let sc := mkSectionContent root md st h
          (rest.head?.map (fun x => x.element))
        if pyStrip sc.text_content = "" then extractLoop root targets md rest acc
        else extractLoop root targets md rest (dictSet acc st sc)
    else extractLoop root targets md rest acc

/-- `FilingParser._extract_target_sections` (lines 339-391). -/
def extractTargetSections (root : HtmlNode) (targets : List String)
    (headings : List HeadingInfo) (md : FilingMetadata) :
    List (SectionType × SectionContent) :=
  extractLoop root targets md headings []

/-- Outcome of `FilingParser.parse_html`: `FileNotFoundError`,
`ParsingError`, or the parsed filing. -/
inductive ParseOutcome where
  | fileNotFound (msg : String)
  | parsingError (msg : String)
  | ok (pf : ParsedFiling)
deriving DecidableEq, Repr

/-- `settings.PARSING_TARGET_SECTIONS` (`src/core/config.py`). -/
def defaultTargetSections : List String := ["1", "1A", "7", "7A", "8"]

/-- `FilingParser.__init__`: lowercase the configured target sections. -/
def parserTargets (target_sections : List String) : List String :=
  target_sections.map lowerStr

/-- `FilingParser.parse_html` (lines 100-138).  The filesystem entry is
`none` when the path does not exist, else the file's text (`_load_html`'s
`latin-1` fallback never fails, so a present file always yields a string);
the lenient lxml HTML parse is an external library, passed as `htmlParse`.
`_validate_heading_order` only logs warnings (lines 315-337) and is a
no-op in this model. -/
def parseHtml (htmlParse : String → HtmlNode) (targets : List String)
    (entry : Option String) : ParseOutcome :=
  match entry with
  | none => .fileNotFound "Filing not found"
  | some content =>
    if pyStrip content = "" then .parsingError "Empty file"
    else
      let root := htmlParse content
      let md := extractMetadata root
      let h1 := findSectionHeadings root
      let headings := if h1.isEmpty then findHeadingsFallback root else h1
      if headings.isEmpty then .parsingError "No section headings found"
      else
        .ok { metadata := md
              sections := extractTargetSections root targets headings md
              all_sections_found := headings.map (fun h =>
                "Item " ++ upperStr h.item_number ++ ": " ++ h.title) }

/-! ## Derived notions and concrete instances used by the statements -/

/-- Metadata dict lookup for chunk attributes. -/
def metaGet (m : List (String × MetaValue)) (key : String) : Option MetaValue :=
  (m.find? (fun e => e.1 = key)).map (fun e => e.2)

/-- A concrete tokenizer instance for witnesses: one token per character. -/
def charTok : Tokenizer :=
  ⟨fun s => s.data.map Char.toNat, fun l => ⟨l.map Char.ofNat⟩⟩

/-- The `Tag` siblings following the `<body>` element (the nodes
`_extract_section_content` walks when a heading anchors at the body
itself). -/
def bodyFollowingTags (root : HtmlNode) : List HtmlNode :=
  match findFirstTag root "body" with
  | none => []
  | some bp =>
    match nodeAt root bp.dropLast with
    | some par =>
      ((par.childrenOf.toList.enum.drop (bp.getLastD 0 + 1)).map (fun x => x.2)).filter
        (fun c => c.isElem)
    | none => []

/-- Each heading paired with the anchor path of the *next* heading in the
list (the slice boundary used by `_extract_target_sections`). -/
def withNext : List HeadingInfo → List (HeadingInfo × Option (List Nat))
  | [] => []
  | h :: rest => (h, rest.head?.map (fun x => x.element)) :: withNext rest

/-- The content contributed by the last heading of designator `d` whose
cleaned text is non-empty (the value the sections dict ends up holding). -/
def lastSurviving (root : HtmlNode) (md : FilingMetadata) (st : SectionType)
    (d : String) (hs : List HeadingInfo) : Option SectionContent :=
  ((((withNext hs).filter (fun x => x.1.item_number = d)).map
    (fun x => mkSectionContent root md st x.1 x.2)).filter
      (fun sc => pyStrip sc.text_content ≠ "")).getLast?

/-- A bold heading span (`font-weight:700`) holding one text node. -/
def spanB (t : String) : HtmlNode :=
  .elem "span" [("style", "font-weight:700")] (nodesOf [.text t])

/-- A top-level heading block: a `div` wrapping a bold heading span. -/
def divB (t : String) : HtmlNode := .elem "div" [] (nodesOf [spanB t])

/-- Document with a duplicated `Item 7` heading whose second occurrence has
only a standalone page number (which cleans to empty) as content. -/
def docDup : HtmlNode :=
  .elem "[document]" [] (nodesOf [.elem "html" [] (nodesOf [.elem "body" []
    (nodesOf [divB "Item 7. MDA", .elem "div" [] (nodesOf [.text "Alpha"]),
     divB "Item 7. MDA2", .elem "div" [] (nodesOf [.text "42"])])])])

/-- Document with no bold spans whose body text contains one `Item` line,
and whose body has no following sibling tags: the fallback detection
scenario. -/
def docFallback : HtmlNode :=
  .elem "[document]" [] (nodesOf [.elem "html" [] (nodesOf [.elem "body" []
    (nodesOf [.text "Item 7. Overview", .text "more stuff"])])])

/-- Document with no detectable headings under either strategy. -/
def docPlain : HtmlNode :=
  .elem "[document]" [] (nodesOf [.elem "html" [] (nodesOf [.elem "body" []
    (nodesOf [.text "hello world"])])])

/-- A table-of-contents table holding two bold `Item` spans inside `td`
cells. -/
def tocTable : HtmlNode :=
  .elem "table" [] (nodesOf [.elem "tr" []
    (nodesOf [.elem "td" [] (nodesOf [spanB "Item 1. Business"]),
     .elem "td" [] (nodesOf [spanB "Item 7. MDA"])])])

/-- Document with `n` bold `Item` heading blocks outside tables and two
bold `Item` spans inside table cells. -/
def docToc (n : Nat) : HtmlNode :=
  .elem "[document]" [] (nodesOf [.elem "html" [] (nodesOf [.elem "body" []
    (nodesOf (List.replicate n (divB "Item 1. Business") ++ [tocTable]))])])

/-! ## Helper lemmas -/

theorem str_append_assoc (a b c : String) : a ++ b ++ c = a ++ (b ++ c) := by
  apply String.ext
  simp [String.data_append]

/-! ## Claims -/

/-- **C8**: constructing a chunker with `overlap ≥ targetChunkSize`
(including equality) fails at construction time with the configuration
error, while `overlap = targetChunkSize - 1` succeeds. -/
theorem c8_construction_validation (c o : Nat) :
    (c ≤ o → SectionChunker.init c o =
      .error "chunk_overlap must be less than chunk_size") ∧
    (o + 1 = c → SectionChunker.init c o = .ok ⟨c, o⟩) := by
  refine ⟨fun h => ?_, fun h => ?_⟩
  · simp [SectionChunker.init, h]
  · have h2 : ¬ c ≤ o := by omega
    simp [SectionChunker.init, h2]

theorem c8_witness :
    SectionChunker.init 250 250 =
      .error "chunk_overlap must be less than chunk_size" ∧
    SectionChunker.init 250 249 = .ok ⟨250, 249⟩ :=
  ⟨(c8_construction_validation 250 250).1 (by decide),
   (c8_construction_validation 250 249).2 (by decide)⟩

/-- **C9**: blank or whitespace-only text yields the empty chunk list, and
text whose stripped form has at most `chunk_size` tokens yields exactly one
chunk, carrying the stripped input as its lexical text and a
`total_chunks` of 1. -/
theorem c9_blank_and_single_chunk (ch : SectionChunker) (tok : Tokenizer)
    (text : String) (sec : SectionType) (st cn cik : String) (fy : Int) :
    (pyStrip text = "" → ch.chunkSection tok text sec st cn cik fy = []) ∧
    (pyStrip text ≠ "" → (tok.encode (pyStrip text)).length ≤ ch.chunk_size →
      ch.chunkSection tok text sec st cn cik fy =
        [{ sec := sec, section_title := st, content_type := .TEXT,
           content_raw := pyStrip text,
           content_context := contextHeader cn fy st ++ "\n\n" ++ pyStrip text,
           chunk_index := 0,
           metadata := chunkMetadata cn cik fy sec st 0 1 }]) := by
  constructor
  · intro h
    simp [SectionChunker.chunkSection, h]
  · intro h1 h2
    simp [SectionChunker.chunkSection, SectionChunker.splitTokens, h1, h2,
      List.enum]

theorem c9_witness :
    SectionChunker.chunkSection ⟨5, 2⟩ charTok "  " .ITEM_7 "MD&A" "Acme" "1" 2024 = [] ∧
    SectionChunker.chunkSection ⟨5, 2⟩ charTok " ab " .ITEM_7 "MD&A" "Acme" "1" 2024 =
      [{ sec := .ITEM_7, section_title := "MD&A", content_type := .TEXT,
         content_raw := pyStrip " ab ",
         content_context := contextHeader "Acme" 2024 "MD&A" ++ "\n\n" ++ pyStrip " ab ",
         chunk_index := 0,
         metadata := chunkMetadata "Acme" "1" 2024 .ITEM_7 "MD&A" 0 1 }] :=
  ⟨(c9_blank_and_single_chunk ⟨5, 2⟩ charTok "  " .ITEM_7 "MD&A" "Acme" "1" 2024).1
     (by decide),
   (c9_blank_and_single_chunk ⟨5, 2⟩ charTok " ab " .ITEM_7 "MD&A" "Acme" "1" 2024).2
     (by decide) (by decide)⟩

theorem chunkSection_eq (ch : SectionChunker) (tok : Tokenizer) (text : String)
    (sec : SectionType) (st cn cik : String) (fy : Int)
    (h0 : pyStrip text ≠ "")
    (h1 : ch.splitTokens tok (pyStrip text) ≠ []) :
    ch.chunkSection tok text sec st cn cik fy =
      (ch.splitTokens tok (pyStrip text)).enum.map (fun p =>
        { sec := sec, section_title := st, content_type := ContentType.TEXT,
          content_raw := p.2,
          content_context := contextHeader cn fy st ++ "\n\n" ++ p.2,
          chunk_index := p.1,
          metadata := chunkMetadata cn cik fy sec st p.1
            (ch.splitTokens tok (pyStrip text)).length }) := by
  simp [SectionChunker.chunkSection, h0, h1]

theorem metaGet_total_chunks (cn cik : String) (fy : Int) (sec : SectionType)
    (st : String) (idx total : Nat) :
    metaGet (chunkMetadata cn cik fy sec st idx total) "total_chunks" =
      some (.int (total : Int)) := rfl

theorem pySliceFrom_append (a b : String) : pySliceFrom (a ++ b) a.length = b := by
  apply String.ext
  show (a ++ b).data.drop a.length = b.data
  rw [String.data_append, show a.length = a.data.length from rfl]
  exact List.drop_left _ _

/-- **C10**: for one `chunk_section` call returning `n` chunks, the
`chunk_index` values are exactly `0..n-1` in list order, and every chunk's
`total_chunks` metadata entry equals `n`. -/
theorem c10_sequential_indexing (ch : SectionChunker) (tok : Tokenizer)
    (text : String) (sec : SectionType) (st cn cik : String) (fy : Int) :
    (ch.chunkSection tok text sec st cn cik fy).map (fun cd => cd.chunk_index) =
      List.range (ch.chunkSection tok text sec st cn cik fy).length ∧
    (ch.chunkSection tok text sec st cn cik fy).map
        (fun cd => metaGet cd.metadata "total_chunks") =
      List.replicate (ch.chunkSection tok text sec st cn cik fy).length
        (some (.int ((ch.chunkSection tok text sec st cn cik fy).length : Int))) := by
  by_cases h0 : pyStrip text = ""
  · simp [SectionChunker.chunkSection, h0]
  by_cases h1 : SectionChunker.splitTokens ch tok (pyStrip text) = []
  · simp [SectionChunker.chunkSection, h0, h1]
  rw [chunkSection_eq ch tok text sec st cn cik fy h0 h1]
  constructor
  · rw [List.map_map, List.length_map, List.enum_length]
    exact List.enum_map_fst _
  · rw [List.map_map, List.length_map, List.enum_length]
    have hmem : ∀ x ∈ (SectionChunker.splitTokens ch tok (pyStrip text)).enum.map
        ((fun cd => metaGet cd.metadata "total_chunks") ∘ (fun p =>
          ({ sec := sec, section_title := st, content_type := ContentType.TEXT,
             content_raw := p.2,
             content_context := contextHeader cn fy st ++ "\n\n" ++ p.2,
             chunk_index := p.1,
             metadata := chunkMetadata cn cik fy sec st p.1
               (ch.splitTokens tok (pyStrip text)).length } : ChunkData))),
        x = some (.int ((SectionChunker.splitTokens ch tok (pyStrip text)).length : Int)) := by
      intro x hx
      rw [List.mem_map] at hx
      obtain ⟨p, _, hp⟩ := hx
      rw [← hp]
      exact metaGet_total_chunks ..
    have h2 := List.eq_replicate_of_mem hmem
    rw [h2, List.length_map, List.enum_length]

/-- **C7**: every emitted chunk's embedding text is exactly the context
header followed by two newlines followed by its lexical text, and dropping
the header's length in characters from the embedding text recovers the
lexical text. -/
theorem c7_embedding_round_trip (ch : SectionChunker) (tok : Tokenizer)
    (text : String) (sec : SectionType) (st cn cik : String) (fy : Int) :
    (ch.chunkSection tok text sec st cn cik fy).map (fun cd => cd.content_context) =
      (ch.chunkSection tok text sec st cn cik fy).map (fun cd =>
        (contextHeader cn fy st ++ "\n\n") ++ cd.content_raw) ∧
    (ch.chunkSection tok text sec st cn cik fy).map (fun cd =>
        pySliceFrom cd.content_context (contextHeader cn fy st ++ "\n\n").length) =
      (ch.chunkSection tok text sec st cn cik fy).map (fun cd => cd.content_raw) := by
  have hctx : ∀ cd ∈ ch.chunkSection tok text sec st cn cik fy,
      cd.content_context = (contextHeader cn fy st ++ "\n\n") ++ cd.content_raw := by
    intro cd hcd
    by_cases h0 : pyStrip text = ""
    · simp [SectionChunker.chunkSection, h0] at hcd
    by_cases h1 : SectionChunker.splitTokens ch tok (pyStrip text) = []
    · simp [SectionChunker.chunkSection, h0, h1] at hcd
    rw [chunkSection_eq ch tok text sec st cn cik fy h0 h1, List.mem_map] at hcd
    obtain ⟨p, _, hp⟩ := hcd
    rw [← hp]
  constructor
  · apply List.map_congr_left
    intro cd hcd
    exact hctx cd hcd
  · apply List.map_congr_left
    intro cd hcd
    rw [hctx cd hcd]
    exact pySliceFrom_append _ _

theorem stripLit_self (p r : List Char) : stripLit p (p ++ r) = some r := by
  induction p with
  | nil => rfl
  | cons c cs ih => simpa [stripLit] using ih

theorem footerSubAux_nil (c y : String) (fuel : Nat) :
    footerSubAux c y fuel [] = [] := by
  cases fuel <;> rfl

theorem data_ne_nil_of_ne_empty (s : String) (h : s ≠ "") : s.data ≠ [] := by
  intro hd
  exact h (String.ext hd)

theorem footerSubAux_step (c y : String) (fuel : Nat) (a : Char)
    (cs rest : List Char) (h : matchFooterAt c y (a :: cs) = some rest) :
    footerSubAux c y (fuel + 1) (a :: cs) = footerSubAux c y fuel rest := by
  simp only [footerSubAux, h]

theorem footerSub_instance (company : String) (h : company ≠ "") :
    footerSub company 2024 (company ++ " | 2024 Form 10-K | 7") = "" := by
  obtain ⟨c, cs, hcd⟩ : ∃ c cs, company.data = c :: cs := by
    cases hd : company.data with
    | nil => exact absurd hd (data_ne_nil_of_ne_empty company h)
    | cons c cs => exact ⟨c, cs, rfl⟩
  have hm : matchFooterAt company (toString (2024 : Int))
      (c :: (cs ++ " | 2024 Form 10-K | 7".data)) = some [] := by
    have h0 : c :: (cs ++ " | 2024 Form 10-K | 7".data) =
        company.data ++ " | 2024 Form 10-K | 7".data := by
      rw [hcd]; rfl
    rw [h0, matchFooterAt, stripLit_self]
    rfl
  apply String.ext
  have h1 : (company ++ " | 2024 Form 10-K | 7").data =
      c :: (cs ++ " | 2024 Form 10-K | 7".data) := by
    show company.data ++ " | 2024 Form 10-K | 7".data = _
    rw [hcd]; rfl
  show footerSubAux company (toString (2024 : Int))
      (company ++ " | 2024 Form 10-K | 7").data.length
      (company ++ " | 2024 Form 10-K | 7").data = ("" : String).data
  rw [h1]
  show footerSubAux company (toString (2024 : Int))
      ((cs ++ " | 2024 Form 10-K | 7".data).length + 1)
      (c :: (cs ++ " | 2024 Form 10-K | 7".data)) = []
  rw [footerSubAux_step _ _ _ _ _ _ hm]
  exact footerSubAux_nil ..

/-- **C6**: the footer pass of `_clean_text` runs exactly when both the
company name is non-empty and the fiscal year is non-zero; when it runs it
removes the footer occurrences (shown on the canonical
`<Company> | <Year> Form 10-K | <digits>` instance, for every non-empty
company name), and when either field is missing the cleanup leaves the
footer pattern in place (shown on a canonical instance). -/
theorem c6_footer_removal (company : String) (year : Int) (text : String) :
    ((company = "" ∨ year = 0) → cleanText company year text = cleanTail text) ∧
    (company ≠ "" ∧ year ≠ 0 →
      cleanText company year text = cleanTail (footerSub company year text)) ∧
    (company ≠ "" →
      cleanText company 2024 (company ++ " | 2024 Form 10-K | 7") = "") ∧
    ((company = "" ∨ year = 0) →
      cleanText company year "x Acme | 2024 Form 10-K | 7 y" =
        "x Acme | 2024 Form 10-K | 7 y") := by
  refine ⟨fun h => ?_, fun h => ?_, fun h => ?_, fun h => ?_⟩
  · rw [cleanText, if_neg (by tauto)]
  · rw [cleanText, if_pos h]
  · rw [cleanText, if_pos ⟨h, by omega⟩, footerSub_instance company h]
    decide
  · rw [cleanText, if_neg (by tauto)]
    decide

/-- **C2**: `parse_html` fails with the not-found error exactly when the
path references no existing file; it fails with `ParsingError` exactly when
the stripped file text is empty or both heading-detection strategies find
zero headings; in every other case it returns a `ParsedFiling`. -/
theorem c2_parse_error_taxonomy (hp : String → HtmlNode)
    (targets : List String) (entry : Option String) :
    ((∃ m, parseHtml hp targets entry = .fileNotFound m) ↔ entry = none) ∧
    (∀ c, entry = some c →
      ((∃ m, parseHtml hp targets entry = .parsingError m) ↔
        (pyStrip c = "" ∨ (findSectionHeadings (hp c) = [] ∧
          findHeadingsFallback (hp c) = [])))) ∧
    ((∃ pf, parseHtml hp targets entry = .ok pf) ↔
      (∃ c, entry = some c ∧ pyStrip c ≠ "" ∧
        ¬(findSectionHeadings (hp c) = [] ∧
          findHeadingsFallback (hp c) = []))) := by
  cases entry with
  | none => simp [parseHtml]
  | some c =>
    by_cases h0 : pyStrip c = ""
    · simp [parseHtml, h0]
    by_cases hA : findSectionHeadings (hp c) = []
    · by_cases hB : findHeadingsFallback (hp c) = []
      · simp [parseHtml, h0, hA, hB]
      · simp [parseHtml, h0, hA, hB]
    · simp [parseHtml, h0, hA]

theorem c2_witness :
    (∃ m, parseHtml (fun _ => docPlain) (parserTargets defaultTargetSections)
      none = .fileNotFound m) ∧
    (∃ m, parseHtml (fun _ => docPlain) (parserTargets defaultTargetSections)
      (some "x") = .parsingError m) ∧
    (∃ pf, parseHtml (fun _ => docFallback) (parserTargets defaultTargetSections)
      (some "x") = .ok pf) :=
  ⟨(c2_parse_error_taxonomy (fun _ => docPlain)
      (parserTargets defaultTargetSections) none).1.mpr rfl,
   ((c2_parse_error_taxonomy (fun _ => docPlain)
      (parserTargets defaultTargetSections) (some "x")).2.1 "x" rfl).mpr
     (Or.inr ⟨by decide, by decide⟩),
   (c2_parse_error_taxonomy (fun _ => docFallback)
      (parserTargets defaultTargetSections) (some "x")).2.2.mpr
     ⟨"x", rfl, by decide, by decide⟩⟩

theorem collectSiblings_no_tags (pp : List Nat) (next? : Option (List Nat))
    (sib : List (Nat × HtmlNode)) (h : ∀ x ∈ sib, x.2.isElem = false) :
    collectSiblings pp next? sib = ([], []) := by
  induction sib with
  | nil => rfl
  | cons x rest ih =>
    obtain ⟨k, c⟩ := x
    have hx := h (k, c) (List.mem_cons_self _ _)
    simp only at hx
    simp only [collectSiblings, hx, Bool.false_eq_true, if_false]
    exact ih (fun y hy => h y (List.mem_cons_of_mem _ hy))

theorem extractSectionContent_no_tags (root : HtmlNode) (anchor : List Nat)
    (next? : Option (List Nat))
    (h : ∀ x ∈ (match nodeAt root anchor.dropLast with
      | some par => par.childrenOf.toList.enum.drop (anchor.getLastD 0 + 1)
      | none => ([] : List (Nat × HtmlNode))), x.2.isElem = false) :
    extractSectionContent root anchor next? = ("", "") := by
  rw [extractSectionContent]
  rw [collectSiblings_no_tags _ _ _ h]
  rfl

theorem cleanText_empty (a : String) (b : Int) : cleanText a b "" = "" := by
  rw [cleanText]
  split
  · show cleanTail (footerSub a b "") = ""
    rw [show footerSub a b "" = "" from rfl]
    decide
  · decide

theorem extractLoop_all_empty (root : HtmlNode) (targets : List String)
    (md : FilingMetadata) (hs : List HeadingInfo)
    (acc : List (SectionType × SectionContent))
    (h : ∀ hd ∈ hs, ∀ nx, extractSectionContent root hd.element nx = ("", "")) :
    extractLoop root targets md hs acc = acc := by
  induction hs with
  | nil => rfl
  | cons hd rest ih =>
    have hrest : ∀ hd2 ∈ rest, ∀ nx,
        extractSectionContent root hd2.element nx = ("", "") :=
      fun hd2 h2 => h hd2 (List.mem_cons_of_mem _ h2)
    rw [extractLoop]
    by_cases ht : hd.item_number ∈ targets
    · rw [if_pos ht]
      cases hIT : ITEM_TO_SECTION hd.item_number with
      | none => exact ih hrest
      | some st =>
        have hsc : pyStrip (mkSectionContent root md st hd
            ((rest.head?).map (fun x => x.element))).text_content = "" := by
          rw [mkSectionContent]
          simp only [h hd (List.mem_cons_self _ _)]
          rw [cleanText_empty]
          rfl
        simp only [hsc, if_pos]
        exact ih hrest
    · rw [if_neg ht]
      exact ih hrest

/-- **C5**: when headings come from the text-fallback strategy, every
heading anchors at the body element itself, so content slicing walks only
the body's following siblings; a document whose body has no following
sibling tags therefore parses to a `ParsedFiling` with an empty sections
map but a non-empty all-headings list. -/
theorem c5_fallback_empty_sections (hp : String → HtmlNode)
    (targets : List String) (c : String) (h0 : pyStrip c ≠ "")
    (h1 : findSectionHeadings (hp c) = [])
    (h2 : findHeadingsFallback (hp c) ≠ [])
    (h3 : (bodyFollowingTags (hp c)).isEmpty = true) :
    (∀ h ∈ findHeadingsFallback (hp c),
      some h.element = findFirstTag (hp c) "body") ∧
    (∃ pf, parseHtml hp targets (some c) = .ok pf ∧ pf.sections = [] ∧
      pf.all_sections_found ≠ []) := by
  rw [List.isEmpty_iff] at h3
  have hanchor : ∀ h ∈ findHeadingsFallback (hp c),
      some h.element = findFirstTag (hp c) "body" := by
    intro h hmem
    rw [findHeadingsFallback] at hmem
    cases hbp : findFirstTag (hp c) "body" with
    | none => simp [hbp] at hmem
    | some bp =>
      simp only [hbp] at hmem
      cases hbn : nodeAt (hp c) bp with
      | none => simp [hbn] at hmem
      | some bodyNode =>
        simp only [hbn, List.mem_map] at hmem
        obtain ⟨m, _, hm⟩ := hmem
        rw [← hm]
  refine ⟨hanchor, ?_⟩
  have hslice : ∀ h ∈ findHeadingsFallback (hp c), ∀ nx,
      extractSectionContent (hp c) h.element nx = ("", "") := by
    intro h hmem nx
    apply extractSectionContent_no_tags
    have hbody := hanchor h hmem
    rw [bodyFollowingTags, ← hbody] at h3
    intro x hx
    revert hx h3
    cases hpar : nodeAt (hp c) h.element.dropLast with
    | none =>
      intro h3 hx
      simp only [hpar] at hx
      simp at hx
    | some par =>
      intro h3 hx
      simp only [hpar] at hx h3
      rw [List.filter_eq_nil_iff] at h3
      have := h3 x.2 (List.mem_map_of_mem (fun y => y.2) hx)
      simpa using this
  have hparse : parseHtml hp targets (some c) = .ok
      { metadata := extractMetadata (hp c)
        sections := extractTargetSections (hp c) targets
          (findHeadingsFallback (hp c)) (extractMetadata (hp c))
        all_sections_found := (findHeadingsFallback (hp c)).map (fun h =>
          "Item " ++ upperStr h.item_number ++ ": " ++ h.title) } := by
    simp [parseHtml, h0, h1, h2]
  refine ⟨_, hparse, ?_, ?_⟩
  · exact extractLoop_all_empty _ _ _ _ _ hslice
  · simpa using h2

theorem c5_witness :
    (∀ h ∈ findHeadingsFallback docFallback,
      some h.element = findFirstTag docFallback "body") ∧
    (∃ pf, parseHtml (fun _ => docFallback)
        (parserTargets defaultTargetSections) (some "x") = .ok pf ∧
      pf.sections = [] ∧ pf.all_sections_found ≠ []) :=
  c5_fallback_empty_sections (fun _ => docFallback)
    (parserTargets defaultTargetSections) "x"
    (by decide) (by decide) (by decide) (by decide)

theorem itemToSection_inj (d1 d2 : String) (st : SectionType)
    (h1 : ITEM_TO_SECTION d1 = some st) (h2 : ITEM_TO_SECTION d2 = some st) :
    d1 = d2 := by
  rw [ITEM_TO_SECTION] at h1 h2
  split_ifs at h1 h2 <;>
    (try injection h1 with h1) <;> (try injection h2 with h2) <;>
    subst_vars <;> simp_all

theorem dictLookup_dictSet_self (m : List (SectionType × SectionContent))
    (k : SectionType) (v : SectionContent) :
    dictLookup (dictSet m k v) k = some v := by
  induction m with
  | nil => simp [dictSet, dictLookup]
  | cons e t ih =>
    obtain ⟨k2, v2⟩ := e
    by_cases h : k2 = k
    · subst h
      simp [dictSet, dictLookup]
    · simp only [dictSet, if_neg h]
      rw [dictLookup, List.find?_cons_of_neg _ (by simpa using h)]
      exact ih

theorem dictLookup_dictSet_other (m : List (SectionType × SectionContent))
    (k k2 : SectionType) (v : SectionContent) (h : k2 ≠ k) :
    dictLookup (dictSet m k2 v) k = dictLookup m k := by
  induction m with
  | nil =>
    rw [dictSet, dictLookup, List.find?_cons_of_neg _ (by simpa using h)]
    rfl
  | cons e t ih =>
    obtain ⟨k3, v3⟩ := e
    by_cases h3 : k3 = k2
    · subst h3
      rw [dictSet, if_pos rfl, dictLookup, dictLookup,
        List.find?_cons_of_neg _ (by simpa using h),
        List.find?_cons_of_neg _ (by simpa using h)]
    · rw [dictSet, if_neg h3]
      by_cases h4 : k3 = k
      · subst h4
        rw [dictLookup, dictLookup, List.find?_cons_of_pos _ (by simp),
          List.find?_cons_of_pos _ (by simp)]
      · rw [dictLookup, dictLookup, List.find?_cons_of_neg _ (by simpa using h4),
          List.find?_cons_of_neg _ (by simpa using h4)]
        exact ih

theorem extractLoop_cons_target (root : HtmlNode) (targets : List String)
    (md : FilingMetadata) (h : HeadingInfo) (rest : List HeadingInfo)
    (acc : List (SectionType × SectionContent)) (st2 : SectionType)
    (htgt : h.item_number ∈ targets)
    (hIT : ITEM_TO_SECTION h.item_number = some st2) :
    extractLoop root targets md (h :: rest) acc =
      (if pyStrip (mkSectionContent root md st2 h
          ((rest.head?).map (fun x => x.element))).text_content = "" then
        extractLoop root targets md rest acc
      else extractLoop root targets md rest (dictSet acc st2
        (mkSectionContent root md st2 h
          ((rest.head?).map (fun x => x.element))))) := by
  rw [extractLoop, if_pos htgt, hIT]

theorem extractLoop_cons_skip (root : HtmlNode) (targets : List String)
    (md : FilingMetadata) (h : HeadingInfo) (rest : List HeadingInfo)
    (acc : List (SectionType × SectionContent))
    (hcase : h.item_number ∉ targets ∨ ITEM_TO_SECTION h.item_number = none) :
    extractLoop root targets md (h :: rest) acc =
      extractLoop root targets md rest acc := by
  rw [extractLoop]
  by_cases htgt : h.item_number ∈ targets
  · rw [if_pos htgt]
    cases hcase with
    | inl hn => exact absurd htgt hn
    | inr he => rw [he]
  · rw [if_neg htgt]

/-- **C4** (counterexample to the claim as stated): parsing `docDup`, whose
two detected headings both carry designator `7`, leaves the sections map
holding the *first* occurrence's content (`"Alpha"`, title `MDA`) — not the
content sliced from the last such heading, which cleans to empty and is
skipped. -/
theorem c4_counterexample :
    (match parseHtml (fun _ => docDup) (parserTargets defaultTargetSections)
        (some "doc") with
     | .ok pf => dictLookup pf.sections .ITEM_7
     | _ => none) =
      some ⟨.ITEM_7, "MDA", "<div>Alpha</div>", "Alpha"⟩ ∧
    (findSectionHeadings docDup).getLast? =
      some ⟨"7", "MDA2", [0, 0, 2], 2⟩ ∧
    mkSectionContent docDup (extractMetadata docDup) .ITEM_7
        ⟨"7", "MDA2", [0, 0, 2], 2⟩ none =
      ⟨.ITEM_7, "MDA2", "<div>42</div>", ""⟩ ∧
    (⟨.ITEM_7, "MDA", "<div>Alpha</div>", "Alpha"⟩ : SectionContent) ≠
      ⟨.ITEM_7, "MDA2", "<div>42</div>", ""⟩ := by
  refine ⟨by decide, by decide, by decide, by decide⟩

/-- **C4** (amended): with duplicate headings at the same target
designator, the sections map holds the content of the *last* duplicate
whose cleaned text is non-empty (later non-empty extraction overwrites
earlier); when every duplicate cleans to empty the designator is absent. -/
theorem c4_last_nonempty_wins (root : HtmlNode) (targets : List String)
    (md : FilingMetadata) (hs : List HeadingInfo) (d : String)
    (st : SectionType)
    (hts : ITEM_TO_SECTION d = some st)
    (hin : d ∈ targets)
    (hdup : 2 ≤ (hs.filter (fun h => h.item_number = d)).length) :
    dictLookup (extractTargetSections root targets hs md) st =
      lastSurviving root md st d hs := by
  clear hdup
  rw [extractTargetSections]
  suffices H : ∀ acc, dictLookup (extractLoop root targets md hs acc) st =
      (match lastSurviving root md st d hs with
       | some sc => some sc
       | none => dictLookup acc st) by
    rw [H []]
    cases lastSurviving root md st d hs <;> simp [dictLookup]
  induction hs with
  | nil =>
    intro acc
    rfl
  | cons h rest ih =>
    intro acc
    by_cases hd : h.item_number = d
    · rw [extractLoop_cons_target root targets md h rest acc st (hd ▸ hin)
        (by rw [hd, hts])]
      by_cases hsc : pyStrip (mkSectionContent root md st h
          ((rest.head?).map (fun x => x.element))).text_content = ""
      · rw [if_pos hsc, ih acc]
        have : lastSurviving root md st d (h :: rest) =
            lastSurviving root md st d rest := by
          rw [lastSurviving, lastSurviving, withNext,
            List.filter_cons_of_pos (by simpa using hd), List.map_cons,
            List.filter_cons_of_neg (by simpa using hsc)]
        rw [this]
      · rw [if_neg hsc, ih (dictSet acc st (mkSectionContent root md st h
          ((rest.head?).map (fun x => x.element))))]
        have hexp : lastSurviving root md st d (h :: rest) =
            ((mkSectionContent root md st h
                ((rest.head?).map (fun x => x.element))) ::
              ((((withNext rest).filter (fun x => x.1.item_number = d)).map
                (fun x => mkSectionContent root md st x.1 x.2)).filter
                (fun sc => decide (pyStrip sc.text_content ≠ "")))).getLast? := by
          rw [lastSurviving, withNext,
            List.filter_cons_of_pos (by simpa using hd), List.map_cons,
            List.filter_cons_of_pos (by simpa using hsc)]
        rw [hexp, List.getLast?_cons, lastSurviving]
        cases hL : ((((withNext rest).filter (fun x => x.1.item_number = d)).map
            (fun x => mkSectionContent root md st x.1 x.2)).filter
              (fun sc => decide (pyStrip sc.text_content ≠ ""))).getLast? with
        | none => simp [dictLookup_dictSet_self]
        | some sc2 => simp
    · have hskip : lastSurviving root md st d (h :: rest) =
          lastSurviving root md st d rest := by
        rw [lastSurviving, lastSurviving, withNext,
          List.filter_cons_of_neg (by simpa using hd)]
      rw [hskip]
      by_cases htgt : h.item_number ∈ targets
      · cases hIT : ITEM_TO_SECTION h.item_number with
        | none =>
          rw [extractLoop_cons_skip root targets md h rest acc (Or.inr hIT)]
          exact ih acc
        | some st2 =>
          have hne : st2 ≠ st := by
            intro heq
            exact hd (itemToSection_inj _ _ _ (heq ▸ hIT) hts)
          rw [extractLoop_cons_target root targets md h rest acc st2 htgt hIT]
          by_cases hsc : pyStrip (mkSectionContent root md st2 h
              ((rest.head?).map (fun x => x.element))).text_content = ""
          · rw [if_pos hsc]
            exact ih acc
          · rw [if_neg hsc, ih _]
            cases lastSurviving root md st d rest with
            | some sc2 => rfl
            | none =>
              simp only
              exact dictLookup_dictSet_other _ _ _ _ hne
      · rw [extractLoop_cons_skip root targets md h rest acc (Or.inl htgt)]
        exact ih acc

theorem c4_witness :
    dictLookup (extractTargetSections docDup
        (parserTargets defaultTargetSections) (findSectionHeadings docDup)
        (extractMetadata docDup)) .ITEM_7 =
      lastSurviving docDup (extractMetadata docDup) .ITEM_7 "7"
        (findSectionHeadings docDup) :=
  c4_last_nonempty_wins docDup (parserTargets defaultTargetSections)
    (extractMetadata docDup) (findSectionHeadings docDup) "7" .ITEM_7
    (by decide) (by decide) (by decide)

theorem toList_nodesOf (l : List HtmlNode) : (nodesOf l).toList = l := by
  induction l with
  | nil => rfl
  | cons n ns ih => rw [nodesOf, NodeList.toList, ih]

theorem getElem?_repl_append {α : Type} (d : α) (r : List α) (N k : Nat)
    (hk : k < N) : (List.replicate N d ++ r)[k]? = some d := by
  rw [List.getElem?_append, List.length_replicate, if_pos hk,
    List.getElem?_replicate, if_pos hk]

theorem getElem?_repl_last {α : Type} (d x : α) (N : Nat) :
    (List.replicate N d ++ [x])[N]? = some x := by
  rw [List.getElem?_append, List.length_replicate, if_neg (by omega)]
  simp

theorem nodeAt_docToc (N k : Nat) (rest : List Nat) :
    nodeAt (docToc N) (0 :: 0 :: k :: rest) =
      (match (List.replicate N (divB "Item 1. Business") ++ [tocTable])[k]? with
       | some c => nodeAt c rest
       | none => none) := by
  show (match ((nodesOf (List.replicate N (divB "Item 1. Business") ++
      [tocTable])).toList)[k]? with
    | some c => nodeAt c rest
    | none => none) = _
  rw [toList_nodesOf]

theorem nodeAt_div (N k : Nat) (hk : k < N) (rest : List Nat) :
    nodeAt (docToc N) (0 :: 0 :: k :: rest) =
      nodeAt (divB "Item 1. Business") rest := by
  rw [nodeAt_docToc, getElem?_repl_append _ _ _ _ hk]

theorem nodeAt_tocTable (N : Nat) (rest : List Nat) :
    nodeAt (docToc N) (0 :: 0 :: N :: rest) = nodeAt tocTable rest := by
  rw [nodeAt_docToc, getElem?_repl_last]

theorem isBoldSpan_eq_of_nodeAt (r1 r2 : HtmlNode) (p1 p2 : List Nat)
    (h : nodeAt r1 p1 = nodeAt r2 p2) : isBoldSpan r1 p1 = isBoldSpan r2 p2 := by
  rw [isBoldSpan, isBoldSpan, h]

theorem descendantPaths_docToc (n : Nat) :
    (docToc n).descendantPaths = [0] :: [0, 0] ::
      (descendantPathsAux (nodesOf (List.replicate n
        (divB "Item 1. Business") ++ [tocTable])) 0).map
        (fun p => 0 :: 0 :: p) := by
  show descendantPathsAux (nodesOf [HtmlNode.elem "html" []
    (nodesOf [HtmlNode.elem "body" [] (nodesOf (List.replicate n
      (divB "Item 1. Business") ++ [tocTable]))])]) 0 = _
  rw [nodesOf, nodesOf, descendantPathsAux, nodesOf, nodesOf,
    descendantPathsAux, descendantPathsAux, descendantPathsAux]
  simp [List.map_map, Function.comp_def]

theorem findFirstTag_docToc (n : Nat) :
    findFirstTag (docToc n) "body" = some [0, 0] := rfl

theorem dPA_div_cons (rest : NodeList) (i : Nat) :
    descendantPathsAux (NodeList.cons (divB "Item 1. Business") rest) i =
      [i] :: [i, 0] :: [i, 0, 0] :: descendantPathsAux rest (i + 1) := rfl

theorem dPA_toc (i : Nat) :
    descendantPathsAux (nodesOf [tocTable]) i =
      [[i], [i, 0], [i, 0, 0], [i, 0, 0, 0], [i, 0, 0, 0, 0],
       [i, 0, 1], [i, 0, 1, 0], [i, 0, 1, 0, 0]] := rfl

theorem isBoldSpan_div_path (N k : Nat) (hk : k < N) (rest : List Nat) :
    isBoldSpan (docToc N) (0 :: 0 :: k :: rest) =
      isBoldSpan (divB "Item 1. Business") rest :=
  isBoldSpan_eq_of_nodeAt _ _ _ _ (nodeAt_div N k hk rest)

theorem isBoldSpan_toc_path (N : Nat) (rest : List Nat) :
    isBoldSpan (docToc N) (0 :: 0 :: N :: rest) = isBoldSpan tocTable rest :=
  isBoldSpan_eq_of_nodeAt _ _ _ _ (nodeAt_tocTable N rest)

theorem filter_bold_repl (N : Nat) :
    ∀ (n i : Nat), i + n = N →
    ((descendantPathsAux (nodesOf (List.replicate n (divB "Item 1. Business") ++
        [tocTable])) i).map (fun p => 0 :: 0 :: p)).filter
      (fun p => isBoldSpan (docToc N) p) =
    (List.range' i n).map (fun k => [0, 0, k, 0]) ++
      [[0, 0, N, 0, 0, 0], [0, 0, N, 0, 1, 0]] := by
  intro n
  induction n with
  | zero =>
    intro i hi
    have hiN : i = N := by omega
    subst hiN
    rw [show List.replicate 0 (divB "Item 1. Business") ++ [tocTable] =
      [tocTable] from rfl, dPA_toc]
    simp only [List.map_cons, List.map_nil, List.filter_cons, List.filter_nil,
      isBoldSpan_toc_path]
    simp only [show isBoldSpan tocTable [] = false from by decide,
      show isBoldSpan tocTable [0] = false from by decide,
      show isBoldSpan tocTable [0, 0] = false from by decide,
      show isBoldSpan tocTable [0, 0, 0] = true from by decide,
      show isBoldSpan tocTable [0, 0, 0, 0] = false from by decide,
      show isBoldSpan tocTable [0, 1] = false from by decide,
      show isBoldSpan tocTable [0, 1, 0] = true from by decide,
      show isBoldSpan tocTable [0, 1, 0, 0] = false from by decide]
    norm_num [List.range']
  | succ m ih =>
    intro i hi
    have hiN : i < N := by omega
    rw [List.replicate_succ, List.cons_append,
      show nodesOf ((divB "Item 1. Business") ::
        (List.replicate m (divB "Item 1. Business") ++ [tocTable])) =
        NodeList.cons (divB "Item 1. Business")
          (nodesOf (List.replicate m (divB "Item 1. Business") ++ [tocTable]))
        from rfl,
      dPA_div_cons]
    simp only [List.map_cons, List.filter_cons, isBoldSpan_div_path N i hiN]
    simp only [show isBoldSpan (divB "Item 1. Business") [] = false from by decide,
      show isBoldSpan (divB "Item 1. Business") [0] = true from by decide,
      show isBoldSpan (divB "Item 1. Business") [0, 0] = false from by decide]
    norm_num
    rw [ih (i + 1) (by omega)]
    rw [show List.range' i (m + 1) = i :: List.range' (i + 1) m from
      List.range'_succ i m 1]
    rw [List.map_cons, List.cons_append]

theorem boldSpanPaths_docToc (n : Nat) :
    boldSpanPaths (docToc n) =
      (List.range' 0 n).map (fun k => [0, 0, k, 0]) ++
        [[0, 0, n, 0, 0, 0], [0, 0, n, 0, 1, 0]] := by
  rw [boldSpanPaths, descendantPaths_docToc]
  rw [List.filter_cons_of_neg
    (by rw [show isBoldSpan (docToc n) [0] = false from rfl]; decide)]
  rw [List.filter_cons_of_neg
    (by rw [show isBoldSpan (docToc n) [0, 0] = false from rfl]; decide)]
  exact filter_bold_repl n n 0 (by omega)

theorem underTable_outside (N k : Nat) (hk : k < N) :
    underTable (docToc N) [0, 0, k, 0] = false := by
  have hdiv : nodeAt (docToc N) [0, 0, k] = some (divB "Item 1. Business") :=
    (nodeAt_div N k hk []).trans rfl
  rw [underTable, show ([0, 0, k, 0] : List Nat).length = 4 from rfl,
    show List.range 4 = [0, 1, 2, 3] from rfl]
  rw [List.any_eq_false]
  intro x hx
  fin_cases hx
  · exact Bool.false_ne_true
  · exact Bool.false_ne_true
  · exact Bool.false_ne_true
  · intro hcontra
    rw [show ([0, 0, k, 0] : List Nat).take 3 = [0, 0, k] from rfl,
      hdiv] at hcontra
    exact Bool.false_ne_true hcontra

theorem underTable_tocSpan1 (N : Nat) :
    underTable (docToc N) [0, 0, N, 0, 0, 0] = true := by
  rw [underTable]
  refine List.any_eq_true.mpr ⟨3, ?_, ?_⟩
  · rw [show ([0, 0, N, 0, 0, 0] : List Nat).length = 6 from rfl]
    simp
  · rw [show ([0, 0, N, 0, 0, 0] : List Nat).take 3 = [0, 0, N] from rfl,
      nodeAt_tocTable N []]
    rfl

theorem underTable_tocSpan2 (N : Nat) :
    underTable (docToc N) [0, 0, N, 0, 1, 0] = true := by
  rw [underTable]
  refine List.any_eq_true.mpr ⟨3, ?_, ?_⟩
  · rw [show ([0, 0, N, 0, 1, 0] : List Nat).length = 6 from rfl]
    simp
  · rw [show ([0, 0, N, 0, 1, 0] : List Nat).take 3 = [0, 0, N] from rfl,
      nodeAt_tocTable N []]
    rfl

theorem spanHeading_table_none (root : HtmlNode) (bp : List Nat)
    (bc : List HtmlNode) (p : List Nat) (h : underTable root p = true) :
    spanHeading root bp bc p = none := by
  cases h1 : nodeAt root p with
  | none => rw [spanHeading, h1]
  | some sp =>
    cases h2 : matchItemHeading (getTextStrip sp) with
    | none =>
      rw [spanHeading, h1]
      simp [h2]
    | some nt =>
      rw [spanHeading, h1]
      simp [h2, h]

theorem tagChildPositions_all (bp : List Nat) (cs : List HtmlNode)
    (h : ∀ c ∈ cs, c.isElem = true) :
    tagChildPositions bp cs = (List.range cs.length).map (fun i => bp ++ [i]) := by
  rw [tagChildPositions]
  have hf : cs.enum.filter (fun ic => ic.2.isElem) = cs.enum := by
    rw [List.filter_eq_self]
    intro x hx
    exact h x.2 (List.snd_mem_of_mem_enum hx)
  rw [hf, ← List.enum_map_fst cs, List.map_map]
  rfl

theorem spanHeading_outside (N k : Nat) (hk : k < N) :
    (spanHeading (docToc N) [0, 0]
      (List.replicate N (divB "Item 1. Business") ++ [tocTable])
      [0, 0, k, 0]).isSome = true := by
  have h1 : nodeAt (docToc N) [0, 0, k, 0] = some (spanB "Item 1. Business") :=
    (nodeAt_div N k hk [0]).trans rfl
  have h2 : underTable (docToc N) [0, 0, k, 0] = false := underTable_outside N k hk
  rw [spanHeading, h1]
  simp only [show matchItemHeading (getTextStrip (spanB "Item 1. Business")) =
    some ("1", "Business") from by decide]
  simp only [h2, Bool.false_eq_true, if_false]
  simp only [show ([0, 0, k, 0] : List Nat).dropLast = [0, 0, k] from rfl]
  simp only [show properPrefixOf [0, 0] [0, 0, k] = true from rfl, if_true]
  simp only [show ([0, 0, k] : List Nat).take (([0, 0] : List Nat).length + 1) =
    [0, 0, k] from rfl]
  rw [tagChildPositions_all [0, 0] _ (by
    intro c hc
    rcases List.mem_append.mp hc with hrep | htab
    · rw [List.eq_of_mem_replicate hrep]; rfl
    · rw [List.mem_singleton.mp htab]; rfl)]
  have hsome : (((List.range (List.replicate N (divB "Item 1. Business") ++
      [tocTable]).length).map (fun i => [0, 0] ++ [i])).findIdx?
        (fun a => a = [0, 0, k])).isSome = true := by
    rw [List.findIdx?_isSome, List.any_eq_true]
    refine ⟨[0, 0] ++ [k], List.mem_map_of_mem _ ?_, by simp⟩
    rw [List.mem_range, List.length_append, List.length_replicate]
    omega
  cases hidx : ((List.range (List.replicate N (divB "Item 1. Business") ++
      [tocTable]).length).map (fun i => [0, 0] ++ [i])).findIdx?
        (fun a => a = [0, 0, k]) with
  | none =>
    rw [hidx] at hsome
    simp at hsome
  | some pos => rfl

theorem length_filterMap_isSome {α β : Type} (f : α → Option β) (l : List α)
    (h : ∀ x ∈ l, (f x).isSome = true) : (l.filterMap f).length = l.length := by
  induction l with
  | nil => rfl
  | cons a t ih =>
    rw [List.filterMap_cons]
    cases hfa : f a with
    | none =>
      have h2 := h a (List.mem_cons_self _ _)
      rw [hfa] at h2
      simp at h2
    | some b =>
      rw [List.length_cons,
        ih (fun x hx => h x (List.mem_cons_of_mem _ hx)), List.length_cons]

theorem length_insertByPos (h : HeadingInfo) (l : List HeadingInfo) :
    (insertByPos h l).length = l.length + 1 := by
  induction l with
  | nil => rfl
  | cons h2 t ih =>
    rw [insertByPos]
    split
    · rw [List.length_cons, ih, List.length_cons]
    · rfl

theorem length_sortByPos (l : List HeadingInfo) :
    (sortByPos l).length = l.length := by
  suffices H : ∀ acc, (l.foldl (fun acc h => insertByPos h acc) acc).length =
      acc.length + l.length by
    simpa using H []
  induction l with
  | nil => intro acc; simp
  | cons h t ih =>
    intro acc
    rw [List.foldl_cons, ih (insertByPos h acc), length_insertByPos,
      List.length_cons]
    omega

theorem filterMap_filter_ne {α β : Type} [DecidableEq α] (f : α → Option β)
    (l : List α) (p : α) (hp : f p = none) :
    l.filterMap f = (l.filter (fun q => q ≠ p)).filterMap f := by
  induction l with
  | nil => rfl
  | cons a t ih =>
    by_cases ha : a = p
    · subst ha
      rw [List.filterMap_cons, hp, List.filter_cons_of_neg (by simp)]
      exact ih
    · rw [List.filter_cons_of_pos (by simpa using ha), List.filterMap_cons,
        List.filterMap_cons]
      cases f a with
      | none => exact ih
      | some b => rw [ih]

/-- **C3**: a bold `Item`-pattern span that is a descendant of a table
element is excluded from heading detection — its `spanHeading` is `none`
and dropping its path from the candidate list leaves the detection
pipeline's output unchanged — and for the document family `docToc n` (two
bold `Item` spans inside table cells plus `n` bold `Item` heading blocks
outside tables), the detected heading list has length exactly `n`. -/
theorem c3_toc_exclusion (root : HtmlNode) (bp : List Nat)
    (bc : List HtmlNode) (p : List Nat) (n : Nat)
    (h : underTable root p = true) :
    spanHeading root bp bc p = none ∧
    (boldSpanPaths root).filterMap (spanHeading root bp bc) =
      ((boldSpanPaths root).filter (fun q => q ≠ p)).filterMap
        (spanHeading root bp bc) ∧
    (findSectionHeadings (docToc n)).length = n := by
  refine ⟨spanHeading_table_none root bp bc p h,
    filterMap_filter_ne _ _ _ (spanHeading_table_none root bp bc p h), ?_⟩
  show (sortByPos ((boldSpanPaths (docToc n)).filterMap
    (spanHeading (docToc n) [0, 0]
      (match nodeAt (docToc n) [0, 0] with
       | some nd => nd.childrenOf.toList
       | none => ([] : List HtmlNode))))).length = n
  rw [show (match nodeAt (docToc n) [0, 0] with
       | some nd => nd.childrenOf.toList
       | none => ([] : List HtmlNode)) =
      List.replicate n (divB "Item 1. Business") ++ [tocTable] from
    toList_nodesOf _]
  rw [length_sortByPos, boldSpanPaths_docToc, List.filterMap_append,
    List.length_append]
  have htab : ([[0, 0, n, 0, 0, 0], [0, 0, n, 0, 1, 0]] :
      List (List Nat)).filterMap (spanHeading (docToc n) [0, 0]
        (List.replicate n (divB "Item 1. Business") ++ [tocTable])) = [] := by
    simp [spanHeading_table_none _ _ _ _ (underTable_tocSpan1 n),
      spanHeading_table_none _ _ _ _ (underTable_tocSpan2 n)]
  have hlen : (((List.range' 0 n).map (fun k => [0, 0, k, 0])).filterMap
      (spanHeading (docToc n) [0, 0]
        (List.replicate n (divB "Item 1. Business") ++ [tocTable]))).length =
      ((List.range' 0 n).map (fun k => [0, 0, k, 0])).length := by
    apply length_filterMap_isSome
    intro x hx
    rw [List.mem_map] at hx
    obtain ⟨k, hk, rfl⟩ := hx
    have hk2 : k < n := by
      rw [List.mem_range'_1] at hk
      omega
    exact spanHeading_outside n k hk2
  rw [htab, hlen, List.length_map]
  rw [show (List.range' 0 n).length = n from by simp]
  rfl

theorem c3_witness :
    spanHeading (docToc 1) [0, 0]
      (List.replicate 1 (divB "Item 1. Business") ++ [tocTable])
      [0, 0, 1, 0, 0, 0] = none ∧
    (boldSpanPaths (docToc 1)).filterMap (spanHeading (docToc 1) [0, 0]
      (List.replicate 1 (divB "Item 1. Business") ++ [tocTable])) =
      ((boldSpanPaths (docToc 1)).filter
        (fun q => q ≠ [0, 0, 1, 0, 0, 0])).filterMap
        (spanHeading (docToc 1) [0, 0]
          (List.replicate 1 (divB "Item 1. Business") ++ [tocTable])) ∧
    (findSectionHeadings (docToc 3)).length = 3 :=
  c3_toc_exclusion (docToc 1) [0, 0]
    (List.replicate 1 (divB "Item 1. Business") ++ [tocTable])
    [0, 0, 1, 0, 0, 0] 3 (by decide)

theorem windowStarts_length_aux (s c T : Nat) (hs : 0 < s) (hsc : s ≤ c) :
    ∀ m start, T - start ≤ m → start < T →
      (windowStarts s c T start).length =
        if T ≤ start + c then 1 else (T - c - start - 1) / s + 2 := by
  intro m
  induction m with
  | zero => intro start hm hlt; omega
  | succ m ih =>
    intro start hm hlt
    rw [windowStarts, dif_pos ⟨hs, hlt⟩]
    by_cases hend : T ≤ start + c
    · rw [if_pos hend, if_pos hend]
      rfl
    · rw [if_neg hend, if_neg hend, List.length_cons,
        ih (start + s) (by omega) (by omega)]
      by_cases h3 : T ≤ start + s + c
      · rw [if_pos h3]
        have hz : (T - c - start - 1) / s = 0 := Nat.div_eq_of_lt (by omega)
        omega
      · rw [if_neg h3]
        have hle : s ≤ T - c - start - 1 := by omega
        have hd := Nat.div_eq_sub_div hs hle
        have heq : T - c - (start + s) - 1 = T - c - start - 1 - s := by omega
        rw [heq]
        omega

theorem windowStarts_map_aux (s c T : Nat) (hs : 0 < s) (hsc : s ≤ c) :
    ∀ m start, T - start ≤ m → start < T →
      windowStarts s c T start =
        (List.range (windowStarts s c T start).length).map
          (fun k => start + k * s) := by
  intro m
  induction m with
  | zero => intro start hm hlt; omega
  | succ m ih =>
    intro start hm hlt
    rw [windowStarts, dif_pos ⟨hs, hlt⟩]
    by_cases hend : T ≤ start + c
    · rw [if_pos hend]
      rw [show List.range [start].length = [0] from rfl]
      simp
    · rw [if_neg hend]
      rw [List.length_cons, List.range_succ_eq_map, List.map_cons,
        List.map_map]
      have ihs := ih (start + s) (by omega) (by omega)
      refine congrArg₂ List.cons (by omega) ?_
      conv_lhs => rw [ihs]
      apply List.map_congr_left
      intro k _
      show start + s + k * s = start + (k + 1) * s
      rw [Nat.succ_mul]
      ring

theorem windowStarts_last_aux (s c T : Nat) (hs : 0 < s) (hsc : s ≤ c) :
    ∀ m start, T - start ≤ m → start < T →
      ∃ last, (windowStarts s c T start).getLast? = some last ∧
        T ≤ last + c := by
  intro m
  induction m with
  | zero => intro start hm hlt; omega
  | succ m ih =>
    intro start hm hlt
    rw [windowStarts, dif_pos ⟨hs, hlt⟩]
    by_cases hend : T ≤ start + c
    · rw [if_pos hend]
      exact ⟨start, rfl, hend⟩
    · rw [if_neg hend]
      obtain ⟨last, hl, hlc⟩ := ih (start + s) (by omega) (by omega)
      refine ⟨last, ?_, hlc⟩
      rw [List.getLast?_cons, hl]
      rfl

theorem windowStarts_head_bound_aux (s c T : Nat) (hs : 0 < s) (hsc : s ≤ c) :
    ∀ m start, T - start ≤ m → start < T →
      ∀ j, j + 1 < (windowStarts s c T start).length →
        ∀ x, (windowStarts s c T start)[j]? = some x → x + c < T := by
  intro m
  induction m with
  | zero => intro start hm hlt; omega
  | succ m ih =>
    intro start hm hlt j hj x hx
    rw [windowStarts, dif_pos ⟨hs, hlt⟩] at hj hx
    by_cases hend : T ≤ start + c
    · rw [if_pos hend] at hj
      simp at hj
    · rw [if_neg hend] at hj hx
      cases j with
      | zero =>
        simp at hx
        omega
      | succ j2 =>
        rw [List.length_cons] at hj
        rw [List.getElem?_cons_succ] at hx
        exact ih (start + s) (by omega) (by omega) j2 (by omega) x hx

theorem windowStarts_cover_aux (s c T : Nat) (hs : 0 < s) (hsc : s ≤ c) :
    ∀ m start, T - start ≤ m → start < T →
      ∀ i, start ≤ i → i < T →
        ∃ st ∈ windowStarts s c T start, st ≤ i ∧ i < min (st + c) T := by
  intro m
  induction m with
  | zero => intro start hm hlt; omega
  | succ m ih =>
    intro start hm hlt i hi1 hi2
    rw [windowStarts, dif_pos ⟨hs, hlt⟩]
    by_cases hend : T ≤ start + c
    · rw [if_pos hend]
      exact ⟨start, List.mem_singleton.mpr rfl, hi1, by omega⟩
    · rw [if_neg hend]
      by_cases hnear : i < start + s
      · exact ⟨start, List.mem_cons_self _ _, hi1, by omega⟩
      · obtain ⟨st, hmem, h1, h2⟩ :=
          ih (start + s) (by omega) (by omega) i (by omega) hi2
        exact ⟨st, List.mem_cons_of_mem _ hmem, h1, h2⟩

theorem splitTokenWindows_eq (c o T : Nat) :
    SectionChunker.splitTokenWindows ⟨c, o⟩ T =
      (windowStarts (c - o) c T 0).map (fun st => (st, min (st + c) T)) := rfl

theorem windows_getElem (c o T : Nat) (h1 : o < c) (h2 : c < T) (k : Nat)
    (hk : k < (windowStarts (c - o) c T 0).length) :
    (windowStarts (c - o) c T 0)[k]? = some (k * (c - o)) := by
  have hmap := windowStarts_map_aux (c - o) c T (by omega) (by omega) T 0
    (by omega) (by omega)
  conv_lhs => rw [hmap]
  rw [List.getElem?_map, List.getElem?_range (by simpa using hk)]
  simp

/-- **C1**: on a token sequence of length `T > targetChunkSize`,
`_split_tokens` emits exactly the clamped windows `[k*s, min (k*s + c, T))`
for `k = 0, 1, ...` with stride `s = c - overlap`, stopping at the first
window whose clamped end reaches `T`; every token index below `T` is
covered by some window; each pair of consecutive windows shares exactly
`overlap` token positions; the window count is `⌈(T - overlap) / s⌉`,
which never exceeds `⌈T / s⌉` — every window the plain `⌈T/s⌉` enumeration
would add beyond the emitted ones has clamped end coinciding with the last
emitted window's end `T`; a sequence of exactly `targetChunkSize + 1`
tokens yields at least two windows; and `_split_tokens` decodes precisely
these windows. -/
theorem c1_sliding_windows (c o T : Nat) (h1 : o < c) (h2 : c < T) :
    ∀ s n, s = c - o → n = (SectionChunker.splitTokenWindows ⟨c, o⟩ T).length →
    (SectionChunker.splitTokenWindows ⟨c, o⟩ T =
      (List.range n).map (fun k => (k * s, min (k * s + c) T))) ∧
    (∀ k, k + 1 < n → k * s + c < T) ∧
    T ≤ (n - 1) * s + c ∧
    (∀ i, i < T → ∃ k, k < n ∧ k * s ≤ i ∧ i < min (k * s + c) T) ∧
    (∀ k, k + 1 < n →
      (Finset.Ico (k * s) (min (k * s + c) T) ∩
        Finset.Ico ((k + 1) * s) (min ((k + 1) * s + c) T)).card = o) ∧
    n = (T - o + s - 1) / s ∧
    n ≤ (T + s - 1) / s ∧
    (∀ k, n ≤ k → min (k * s + c) T = T) ∧
    2 ≤ (SectionChunker.splitTokenWindows ⟨c, o⟩ (c + 1)).length ∧
    (∀ (tok : Tokenizer) (text : String), (tok.encode text).length = T →
      SectionChunker.splitTokens ⟨c, o⟩ tok text =
        (SectionChunker.splitTokenWindows ⟨c, o⟩ T).map (fun w =>
          pyStrip (tok.decode (((tok.encode text).drop w.1).take (w.2 - w.1))))) := by
  intro s n hs hn
  subst hs
  have hs0 : 0 < c - o := by omega
  have hsc : c - o ≤ c := by omega
  have hT0 : (0 : Nat) < T := by omega
  have hlen0 : (windowStarts (c - o) c T 0).length =
      (T - c - 1) / (c - o) + 2 := by
    rw [windowStarts_length_aux (c - o) c T hs0 hsc T 0 (by omega) hT0,
      if_neg (by omega), Nat.sub_zero]
  have hnL : n = (windowStarts (c - o) c T 0).length := by
    rw [hn, splitTokenWindows_eq, List.length_map]
  have hwin : SectionChunker.splitTokenWindows ⟨c, o⟩ T =
      (List.range n).map (fun k => (k * (c - o), min (k * (c - o) + c) T)) := by
    rw [splitTokenWindows_eq]
    conv_lhs => rw [windowStarts_map_aux (c - o) c T hs0 hsc T 0 (by omega) hT0]
    rw [List.map_map, hnL]
    apply List.map_congr_left
    intro k _
    show (0 + k * (c - o), min (0 + k * (c - o) + c) T) = _
    rw [Nat.zero_add]
  have hheads : ∀ k, k + 1 < n → k * (c - o) + c < T := by
    intro k hk
    have hb := windowStarts_head_bound_aux (c - o) c T hs0 hsc T 0
      (by omega) hT0 k (by omega) (k * (c - o))
      (windows_getElem c o T h1 h2 k (by omega))
    exact hb
  have hlast : T ≤ (n - 1) * (c - o) + c := by
    obtain ⟨last, hl, hlc⟩ := windowStarts_last_aux (c - o) c T hs0 hsc T 0
      (by omega) hT0
    have hL2 : 2 ≤ (windowStarts (c - o) c T 0).length := by
      rw [hlen0]
      exact Nat.le_add_left 2 _
    rw [List.getLast?_eq_getElem?] at hl
    rw [windows_getElem c o T h1 h2 ((windowStarts (c - o) c T 0).length - 1)
      (by omega)] at hl
    have h3 : ((windowStarts (c - o) c T 0).length - 1) * (c - o) = last :=
      Option.some.inj hl
    rw [hnL, h3]
    exact hlc
  refine ⟨hwin, hheads, hlast, ?_, ?_, ?_, ?_, ?_, ?_, ?_⟩
  · intro i hi
    obtain ⟨st, hmem, hle, hlt⟩ := windowStarts_cover_aux (c - o) c T hs0 hsc
      T 0 (by omega) hT0 i (by omega) hi
    rw [windowStarts_map_aux (c - o) c T hs0 hsc T 0 (by omega) hT0,
      List.mem_map] at hmem
    obtain ⟨k, hkr, hkst⟩ := hmem
    refine ⟨k, ?_, ?_, ?_⟩
    · rw [hnL]
      exact List.mem_range.mp hkr
    · rw [← hkst] at hle
      simpa using hle
    · rw [← hkst] at hlt
      simpa using hlt
  · intro k hk
    have he1 : min (k * (c - o) + c) T = k * (c - o) + c :=
      min_eq_left (le_of_lt (hheads k hk))
    rw [he1, Finset.Ico_inter_Ico]
    have hmul : k * (c - o) + (c - o) = (k + 1) * (c - o) := by
      rw [Nat.succ_mul]
    have hmax : max (k * (c - o)) ((k + 1) * (c - o)) = (k + 1) * (c - o) :=
      max_eq_right (Nat.mul_le_mul_right _ (by omega))
    have hmin : min (k * (c - o) + c) (min ((k + 1) * (c - o) + c) T) =
        k * (c - o) + c := by
      apply min_eq_left
      apply le_min
      · rw [← hmul]
        omega
      · exact le_of_lt (hheads k hk)
    rw [hmax, hmin, Nat.card_Ico, ← hmul]
    omega
  · rw [hnL, hlen0]
    have he : T - o + (c - o) - 1 = (T - c - 1) + (c - o) + (c - o) := by omega
    rw [he, Nat.add_div_right _ hs0, Nat.add_div_right _ hs0]
  · have hmono : (T - o + (c - o) - 1) / (c - o) ≤ (T + (c - o) - 1) / (c - o) :=
      Nat.div_le_div_right (by omega)
    have he : n = (T - o + (c - o) - 1) / (c - o) := by
      rw [hnL, hlen0]
      have he2 : T - o + (c - o) - 1 = (T - c - 1) + (c - o) + (c - o) := by omega
      rw [he2, Nat.add_div_right _ hs0, Nat.add_div_right _ hs0]
    rw [he]
    exact hmono
  · intro k hk
    apply min_eq_right
    calc T ≤ (n - 1) * (c - o) + c := hlast
    _ ≤ k * (c - o) + c :=
      Nat.add_le_add_right (Nat.mul_le_mul_right _ (by omega)) c
  · rw [splitTokenWindows_eq, List.length_map,
      windowStarts_length_aux (c - o) c (c + 1) hs0 hsc (c + 1) 0
        (by omega) (by omega), if_neg (by omega),
      show c + 1 - c - 0 - 1 = 0 from by omega, Nat.zero_div]
  · intro tok text henc
    rw [SectionChunker.splitTokens]
    simp only [henc]
    rw [if_neg (by omega)]

theorem c1_witness :
    (SectionChunker.splitTokenWindows ⟨5, 2⟩ 12 =
      (List.range 4).map (fun k => (k * 3, min (k * 3 + 5) 12))) ∧
    (∀ k, k + 1 < 4 → k * 3 + 5 < 12) ∧
    12 ≤ (4 - 1) * 3 + 5 ∧
    (∀ i, i < 12 → ∃ k, k < 4 ∧ k * 3 ≤ i ∧ i < min (k * 3 + 5) 12) ∧
    (∀ k, k + 1 < 4 →
      (Finset.Ico (k * 3) (min (k * 3 + 5) 12) ∩
        Finset.Ico ((k + 1) * 3) (min ((k + 1) * 3 + 5) 12)).card = 2) ∧
    4 = (12 - 2 + 3 - 1) / 3 ∧
    4 ≤ (12 + 3 - 1) / 3 ∧
    (∀ k, 4 ≤ k → min (k * 3 + 5) 12 = 12) ∧
    2 ≤ (SectionChunker.splitTokenWindows ⟨5, 2⟩ (5 + 1)).length ∧
    (∀ (tok : Tokenizer) (text : String), (tok.encode text).length = 12 →
      SectionChunker.splitTokens ⟨5, 2⟩ tok text =
        (SectionChunker.splitTokenWindows ⟨5, 2⟩ 12).map (fun w =>
          pyStrip (tok.decode (((tok.encode text).drop w.1).take (w.2 - w.1))))) :=
  c1_sliding_windows 5 2 12 (by decide) (by decide) 3 4 (by decide)
    (by simp [splitTokenWindows_eq, windowStarts])

theorem c6_witness :
    cleanText "" 2024 "x Acme | 2024 Form 10-K | 7 y" =
      "x Acme | 2024 Form 10-K | 7 y" ∧
    cleanText "Acme" 2024 ("Acme" ++ " | 2024 Form 10-K | 7") = "" :=
  ⟨(c6_footer_removal "" 2024 "x Acme | 2024 Form 10-K | 7 y").2.2.2
     (Or.inl rfl),
   (c6_footer_removal "Acme" 2024 "t").2.2.1 (by decide)⟩

end FinSage
